import Mathlib

/-!
Verification development for the `stack` toolchain: a shallow embedding of
the assembler, the binary image container, the operand stack, the call
frames, the heap and the debugger state of the repository, together with
theorems settling the specification claims about them.

Machine integers are modelled as `Nat`/`Int` with explicit reduction
modulo `2 ^ (8 * w)` at the byte boundaries, exactly where the Rust code
converts to and from little-endian bytes.  Byte buffers are `List Nat`
(each entry one byte).  Fallible operations return `Option` or
`Except String`; a Rust `panic!`/failed `unwrap` is modelled as the
absence of a result, with a comment at each such place.
-/

/-! ### Little-endian byte encoding (the Number trait of src/lib.rs)

The Rust `Number` trait provides `to_le_bytes`/`from_le_bytes` for the
fixed-width integer types `i8`, `i32`, `i64`, `u8` and `u64`.  We model a
`w`-byte little-endian encoding of a natural number and the signed and
unsigned decodings. -/

/-- Little-endian byte list of width `w` for the natural number `n`
(the low `8 * w` bits of `n`). -/
def natToLe : Nat → Nat → List Nat
  | 0, _ => []
  | w + 1, n => n % 256 :: natToLe w (n / 256)

/-- Value of a little-endian byte list as an unsigned natural number. -/
def leToNat : List Nat → Nat
  | [] => 0
  | b :: bs => b + 256 * leToNat bs

/-- Two's-complement encoding: a `w`-byte little-endian byte list for the
integer `v`, reduced modulo `2 ^ (8 * w)` (this is what Rust's
`to_le_bytes` produces for both signed and unsigned types). -/
def intToLe (w : Nat) (v : Int) : List Nat :=
  natToLe w (v % ((2 : Int) ^ (8 * w))).toNat

/-- Signed (two's-complement) decoding of a `w`-byte little-endian byte
list, as performed by `from_le_bytes` at the signed types. -/
def leToIntS (w : Nat) (bs : List Nat) : Int :=
  let n : Int := leToNat bs
  if n < (2 : Int) ^ (8 * w - 1) then n else n - (2 : Int) ^ (8 * w)

/-! ### Raw byte buffers

`readBytes` and `writeBytes` model Rust slice reads
(`&buf[off..off + n]`) and writes
(`buf[off..off + n].copy_from_slice(src)`).  The Rust operations panic
out of bounds; every use below is guarded by the bounds under which the
source is panic-free. -/

/-- Read `n` bytes at offset `off` (Rust `&buf[off..off + n]`). -/
def readBytes (buf : List Nat) (off n : Nat) : List Nat :=
  (buf.drop off).take n

/-- Overwrite the bytes at `off .. off + src.length` with `src`
(Rust `buf[off..].copy_from_slice(src)` on that range). -/
def writeBytes (buf : List Nat) (off : Nat) (src : List Nat) : List Nat :=
  buf.take off ++ src ++ buf.drop (off + src.length)

/-! ### Fixed-width number types (src/lib.rs `impl_number!`)

The stack and the frames instantiate `Number` at `i8`, `i32`, `i64`,
`u8` and `u64`; `SIZE` is the byte width and the signedness governs
`from_le_bytes`. -/

/-- The integer types the VM instantiates the `Number` trait at. -/
inductive NumTy where
  | i8 | i32 | i64 | u8 | u64
deriving DecidableEq, Repr

/-- Byte width (`Number::SIZE`). -/
def NumTy.size : NumTy → Nat
  | .i8 => 1
  | .i32 => 4
  | .i64 => 8
  | .u8 => 1
  | .u64 => 8

/-- Signedness of `from_le_bytes` at this type. -/
def NumTy.signed : NumTy → Bool
  | .i8 => true
  | .i32 => true
  | .i64 => true
  | .u8 => false
  | .u64 => false

/-- Model of `v.to_le_bytes()` at this type. -/
def NumTy.encode (t : NumTy) (v : Int) : List Nat :=
  intToLe t.size v

/-- Model of `T::from_le_bytes(bs)` at this type. -/
def NumTy.decode (t : NumTy) (bs : List Nat) : Int :=
  if t.signed then leToIntS t.size bs else (leToNat bs : Int)

/-! ### Operand stack (src/stack.rs)

A 512-byte buffer plus a 4-byte-slot index.  `push`/`pop`/`peek`/`dup`
address the buffer at `idx * 4`; a push of a 1-byte value first zeroes
the whole slot.  Rust panics on buffer overflow and on `idx` underflow;
theorems below carry the bounds under which the source is panic-free
(`Nat` subtraction truncates where Rust would panic). -/

/-- STACK_SIZE in src/stack.rs. -/
def STACK_SIZE : Nat := 512

/-- One operand-stack state: the raw byte buffer and the slot index. -/
structure OperandStack where
  stack : List Nat
  idx : Nat
deriving DecidableEq, Repr

/-- `OperandStack::default()`: a zeroed buffer with `idx = 0`. -/
def OperandStack.dflt : OperandStack :=
  { stack := List.replicate STACK_SIZE 0, idx := 0 }

/-- Slots occupied by a value of type `t` (`T::SIZE.max(4) / 4`). -/
def NumTy.slots (t : NumTy) : Nat := max t.size 4 / 4

/-- `as_slice()`: the used prefix `&stack[..idx * SLOT_SIZE]`. -/
def OperandStack.asSlice (s : OperandStack) : List Nat :=
  s.stack.take (s.idx * 4)

/-- `clear()`: reset the slot index (the buffer bytes are kept). -/
def OperandStack.clear (s : OperandStack) : OperandStack :=
  { s with idx := 0 }

/-- `peek::<T>()`. -/
def OperandStack.peek (t : NumTy) (s : OperandStack) : Option Int :=
  if s.idx < t.size / 4 then none
  else
    let idx := s.idx - t.slots
    some (t.decode (readBytes s.stack (idx * 4) t.size))

/-- `push::<T>(value)`: zero the slot when `T::SIZE < 4`, then write the
little-endian bytes; the index advances by the slot count. -/
def OperandStack.push (t : NumTy) (v : Int) (s : OperandStack) : OperandStack :=
  let off := s.idx * 4
  let stack1 := if t.size < 4 then writeBytes s.stack off [0, 0, 0, 0] else s.stack
  { stack := writeBytes stack1 off (t.encode v), idx := s.idx + t.slots }

/-- `pop::<T>()`: decrement the index, then read at the new top. -/
def OperandStack.pop (t : NumTy) (s : OperandStack) : Int × OperandStack :=
  let idx := s.idx - t.slots
  (t.decode (readBytes s.stack (idx * 4) t.size), { s with idx := idx })

/-- `drop::<T>()` (named `discard` here; `drop` collides with `List.drop`). -/
def OperandStack.discard (t : NumTy) (s : OperandStack) : OperandStack :=
  (s.pop t).2

/-- The `i32` value of `a.cmp(&b)` (`Ordering::{Less, Equal, Greater}`
cast to −1, 0, 1). -/
def cmpOrd (a b : Int) : Int :=
  if a < b then -1 else if a = b then 0 else 1

/-- `add::<T>()`: pop `b`, pop `a`, push `a + b` (bytes wrap on encode). -/
def OperandStack.add (t : NumTy) (s : OperandStack) : OperandStack :=
  let (b, s1) := s.pop t
  let (a, s2) := s1.pop t
  s2.push t (a + b)

/-- `sub::<T>()`. -/
def OperandStack.sub (t : NumTy) (s : OperandStack) : OperandStack :=
  let (b, s1) := s.pop t
  let (a, s2) := s1.pop t
  s2.push t (a - b)

/-- `mul::<T>()`. -/
def OperandStack.mul (t : NumTy) (s : OperandStack) : OperandStack :=
  let (b, s1) := s.pop t
  let (a, s2) := s1.pop t
  s2.push t (a * b)

/-- `div::<T>()`: Rust integer division truncates toward zero
(`Int.tdiv`); Rust panics on division by zero, where `tdiv` is total. -/
def OperandStack.div (t : NumTy) (s : OperandStack) : OperandStack :=
  let (b, s1) := s.pop t
  let (a, s2) := s1.pop t
  s2.push t (a.tdiv b)

/-- `cmp::<T>()`: pop `b`, pop `a`, push `a.cmp(&b) as i32`. -/
def OperandStack.cmp (t : NumTy) (s : OperandStack) : OperandStack :=
  let (b, s1) := s.pop t
  let (a, s2) := s1.pop t
  s2.push .i32 (cmpOrd a b)

/-- `dup::<T>()`: read the top value of width `T` and push it again. -/
def OperandStack.dup (t : NumTy) (s : OperandStack) : OperandStack :=
  let idx := s.idx - t.slots
  let v := t.decode (readBytes s.stack (idx * 4) t.size)
  s.push t v

/-! ### Auxiliary facts about the stack operations -/

/-! ### Locals (src/locals.rs)

A 512-byte slot-indexed buffer; slot `i` starts at byte `i * 4`.
Out-of-range Rust slicing panics; theorems stay within bounds. -/

/-- LOCALS_SIZE in src/locals.rs (4 * 128 bytes). -/
def LOCALS_SIZE : Nat := 512

/-- A frame's local-variable buffer. -/
structure Locals where
  locals : List Nat
deriving DecidableEq, Repr

/-- `Locals::default()`: a zeroed buffer. -/
def Locals.dflt : Locals :=
  { locals := List.replicate LOCALS_SIZE 0 }

/-- `read::<T>(i)`: decode `T` at byte offset `i * 4`. -/
def Locals.read (t : NumTy) (i : Nat) (l : Locals) : Int :=
  t.decode (readBytes l.locals (i * 4) t.size)

/-- `write::<T>(i, value)`. -/
def Locals.write (t : NumTy) (i : Nat) (v : Int) (l : Locals) : Locals :=
  { locals := writeBytes l.locals (i * 4) (t.encode v) }

/-- `copy_from_slice(slice)`: overwrite the prefix of the buffer
(`self.locals[..slice.len()].copy_from_slice(slice)`). -/
def Locals.copyFromSlice (l : Locals) (s : List Nat) : Locals :=
  { locals := writeBytes l.locals 0 s }

/-! ### Program cursor (src/program.rs `Program<T>`)

A byte buffer with a read position.  `base` models the (arbitrary) host
address of the buffer, used only by `getptr`, which in Rust returns a raw
pointer into the buffer. -/

/-- The program cursor: image bytes, current position, buffer address. -/
structure Cursor where
  src : List Nat
  pos : Nat
  base : Nat
deriving DecidableEq, Repr

/-- `set_position(p)`. -/
def Cursor.setPosition (c : Cursor) (p : Nat) : Cursor :=
  { c with pos := p }

/-- `next::<N>()`: read `N::SIZE` bytes at the position.  A read that
returns no bytes is "unexpected end of program"; a short read is
"read less than expected bytes" (src/program.rs lines 129 to 140). -/
def Cursor.next (t : NumTy) (c : Cursor) : Except String (Int × Cursor) :=
  if c.src.length ≤ c.pos then .error "unexpected end of program"
  else if c.src.length < c.pos + t.size then .error "read less than expected bytes"
  else .ok (t.decode (readBytes c.src c.pos t.size), { c with pos := c.pos + t.size })

/-! ### Bytecode (src/program.rs, plus the variants src/frame.rs
dispatches on)

The snapshot's `program.rs` enum lacks `ALoad*`, `AStore*`, `Free`,
`JmpGe` and `JmpLe`, which `frame.rs` matches on; those variants are
modelled from the spec (section 4.1 lists the aload/astore/free and
jmp.ge/jmp.le opcodes) and inserted in this file's evident alphabetical
order.  No claim theorem depends on the numeric discriminants. -/

/-- The instruction opcodes dispatched by `Frame::step`. -/
inductive Bytecode where
  | ALoad | ALoadB | ALoadD | AStore | AStoreB | AStoreD
  | Add | AddB | AddD | Alloc | Cmp | CmpD | DataPtr | Div | DivD
  | Dup | DupD | Free | Get | GetB | GetD
  | Jmp | JmpEq | JmpGe | JmpGt | JmpLe | JmpLt | JmpNe
  | Load | LoadB | LoadD | Mul | MulD | Ptr | Pop | PopB | PopD
  | Push | PushB | PushD | Read | Store | StoreB | StoreD
  | Sub | SubB | SubD | System | Write
  | Call | Panic | Ret | RetW | RetD
deriving DecidableEq, Repr

/-- Declaration order of the opcodes; the discriminant of an opcode is
its index in this list. -/
def opcodeList : List Bytecode :=
  [.ALoad, .ALoadB, .ALoadD, .AStore, .AStoreB, .AStoreD,
   .Add, .AddB, .AddD, .Alloc, .Cmp, .CmpD, .DataPtr, .Div, .DivD,
   .Dup, .DupD, .Free, .Get, .GetB, .GetD,
   .Jmp, .JmpEq, .JmpGe, .JmpGt, .JmpLe, .JmpLt, .JmpNe,
   .Load, .LoadB, .LoadD, .Mul, .MulD, .Ptr, .Pop, .PopB, .PopD,
   .Push, .PushB, .PushD, .Read, .Store, .StoreB, .StoreD,
   .Sub, .SubB, .SubD, .System, .Write,
   .Call, .Panic, .Ret, .RetW, .RetD]

/-- `next_op`'s decoding of an opcode byte (the `transmute`); `none`
models the `assert!(op <= Bytecode::RetD as u8)` panic. -/
def decodeOp (n : Nat) : Option Bytecode :=
  opcodeList.get? n

/-! ### Heap (src/heap.rs)

Allocations are byte regions identified by the host address of their
buffer (`mem.as_ptr()`).  The model carries that address as the `addr`
field; a fresh allocation receives a fresh nonzero address (Rust boxed
buffers of distinct live allocations have distinct nonzero addresses;
allocations are never deallocated, so `allocations.length + 1` is
fresh).  The free list holds indices of freed allocations. -/

/-- One heap allocation (`Allocation` in src/heap.rs). -/
structure Allocation where
  free : Bool
  mem : List Nat
  addr : Nat
deriving DecidableEq, Repr

/-- `Allocation::new(size)`: in use, zero-initialised. -/
def Allocation.new (size addr : Nat) : Allocation :=
  { free := false, mem := List.replicate size 0, addr := addr }

/-- The process-wide heap (the `Mutex` protection is not modelled;
execution is single-threaded). -/
structure Heap where
  allocations : List Allocation
  freeList : List Nat
deriving DecidableEq, Repr

/-- The empty heap (`Heap::default()`). -/
def Heap.dflt : Heap :=
  { allocations := [], freeList := [] }

/-- The scan in `Heap::alloc`: walk the free list in order and return
the position in the free list and the id of the first allocation whose
capacity is at least `size` (entries whose id does not resolve are
skipped, as in the source's `if let Some(alloc) = allocations.get(*id)`). -/
def Heap.findFree (allocations : List Allocation) (size : Nat) :
    List Nat → Nat → Option (Nat × Nat)
  | [], _ => none
  | id :: rest, i =>
      match allocations.get? id with
      | some alc =>
          if size ≤ alc.mem.length then some (i, id)
          else Heap.findFree allocations size rest (i + 1)
      | none => Heap.findFree allocations size rest (i + 1)

/-- `Heap::alloc(size)`: reuse the first fitting free allocation
(clearing its `free` flag and removing its free-list entry, keeping its
bytes), else append a fresh zero-initialised allocation; returns the
allocation's address. -/
def Heap.alloc (h : Heap) (size : Nat) : Nat × Heap :=
  match Heap.findFree h.allocations size h.freeList 0 with
  | some (i, id) =>
      match h.allocations.get? id with
      | some alc =>
          (alc.addr,
           { allocations := h.allocations.set id { alc with free := false },
             freeList := h.freeList.eraseIdx i })
      | none => (0, h)
  | none =>
      let addr := h.allocations.length + 1
      (addr, { h with allocations := h.allocations ++ [Allocation.new size addr] })

/-- Locate an allocation by its address (the `find` by `mem.as_ptr()`
in `free`, `read` and `write`). -/
def Heap.findByAddr (h : Heap) (ptr : Nat) : Option (Nat × Allocation) :=
  match h.allocations.findIdx? (fun alc => alc.addr = ptr) with
  | some id =>
      match h.allocations.get? id with
      | some alc => some (id, alc)
      | none => none
  | none => none

/-- `Heap::free(ptr)`: mark the allocation free and push its id;
`none` models the `todo!()` panic when no allocation matches. -/
def Heap.freeAlloc (h : Heap) (ptr : Nat) : Option Heap :=
  match h.findByAddr ptr with
  | some (id, alc) =>
      some { allocations := h.allocations.set id { alc with free := true },
             freeList := h.freeList ++ [id] }
  | none => none

/-! ### Frame (src/frame.rs)

A frame owns its operand stack and locals and records `entry` and `ret`.
The `Arc<Heap>` shared by all frames is threaded through `step`
explicitly.  `step` returns the mutated frame, the heap, the advanced
cursor and an event: `cont` for instructions that fall through, `fr`
for a `FrameResult`, and explicit events for the host-mediated system
calls (whose effects live outside the VM state). -/

/-- One call frame. -/
structure Frame where
  opstack : OperandStack
  locals : Locals
  entry : Nat
  ret : Nat
deriving DecidableEq, Repr

/-- `FrameResult`; each terminator carries the position of its opcode. -/
inductive FrameResult where
  | Call (f : Frame)
  | Ret (pos : Nat)
  | RetW (pos : Nat)
  | RetD (pos : Nat)
  | Panic (pos : Nat)
deriving DecidableEq, Repr

/-- Outcome of one `step`: fall through, yield a `FrameResult`, or a
host-mediated system-call effect (process exit, file read/write/close/
fsync), which the embedding does not interpret further. -/
inductive StepEvent where
  | cont
  | fr (r : FrameResult)
  | sysExit (code : Int)
  | sysRead (fd : Int) (ptr : Nat) (size : Nat)
  | sysWrite (fd : Int) (ptr : Nat) (size : Nat)
  | sysClose (fd : Int)
  | sysFsync (fd : Int)
deriving DecidableEq, Repr

/-- `Frame::push::<T>`: read an immediate and push it. -/
def Frame.pushOp (t : NumTy) (fr : Frame) (c : Cursor) :
    Except String (Frame × Cursor) :=
  match c.next t with
  | .error e => .error e
  | .ok (v, c1) => .ok ({ fr with opstack := fr.opstack.push t v }, c1)

/-- `Frame::load::<T>`: read a u64 slot index and push the local. -/
def Frame.loadOp (t : NumTy) (fr : Frame) (c : Cursor) :
    Except String (Frame × Cursor) :=
  match c.next .u64 with
  | .error e => .error e
  | .ok (i, c1) =>
      .ok ({ fr with opstack := fr.opstack.push t (fr.locals.read t i.toNat) }, c1)

/-- `Frame::store::<T>`: read a u64 slot index, pop a value, write it. -/
def Frame.storeOp (t : NumTy) (fr : Frame) (c : Cursor) :
    Except String (Frame × Cursor) :=
  match c.next .u64 with
  | .error e => .error e
  | .ok (i, c1) =>
      let (v, s1) := fr.opstack.pop t
      .ok ({ fr with opstack := s1, locals := fr.locals.write t i.toNat v }, c1)

/-- `Frame::get::<T>`: pop `offset` then `ptr`, read a `T` from the
image at `ptr + offset`.  Rust indexes the image slice directly and
panics out of bounds; the error models that panic. -/
def Frame.getOp (t : NumTy) (fr : Frame) (c : Cursor) :
    Except String (Frame × Cursor) :=
  let (offset, s1) := fr.opstack.pop .u64
  let (ptr, s2) := s1.pop .u64
  let at_ := (ptr + offset).toNat
  if at_ + t.size ≤ c.src.length then
    .ok ({ fr with opstack := s2.push t (t.decode (readBytes c.src at_ t.size)) }, c)
  else .error "program read out of bounds"

/-- `Frame::jmp`: read the 8-byte absolute target; when `conditions` is
nonempty, pop one i32 and jump iff it equals one of the conditions (cast
to i32); when `conditions` is empty, jump unconditionally without
popping (src/frame.rs lines 147 to 160). -/
def Frame.jmp (fr : Frame) (c : Cursor) (conditions : List Int) :
    Except String (Frame × Cursor) :=
  match c.next .u64 with
  | .error e => .error e
  | .ok (pos, c1) =>
      if conditions.isEmpty then .ok (fr, c1.setPosition pos.toNat)
      else
        let (hv, s1) := fr.opstack.pop .i32
        let fr1 := { fr with opstack := s1 }
        if conditions.contains hv then .ok (fr1, c1.setPosition pos.toNat)
        else .ok (fr1, c1)

/-- `Frame::alloc`: pop a u64 size, allocate, push the address. -/
def Frame.allocOp (fr : Frame) (h : Heap) : Frame × Heap :=
  let (size, s1) := fr.opstack.pop .u64
  let (ptr, h1) := h.alloc size.toNat
  ({ fr with opstack := s1.push .u64 (ptr : Int) }, h1)

/-- `Frame::free`: pop a u64 address and free it (`todo!()` panic when
the address is unknown). -/
def Frame.freeOp (fr : Frame) (h : Heap) : Except String (Frame × Heap) :=
  let (ptr, s1) := fr.opstack.pop .u64
  match h.freeAlloc ptr.toNat with
  | some h1 => .ok ({ fr with opstack := s1 }, h1)
  | none => .error "free: unknown pointer"

/-- `Frame::dataptr`: read a u64 offset, push the host address of the
image byte at that offset (`getptr`); panics past the end. -/
def Frame.dataptrOp (fr : Frame) (c : Cursor) :
    Except String (Frame × Cursor) :=
  match c.next .u64 with
  | .error e => .error e
  | .ok (offset, c1) =>
      if offset.toNat ≤ c1.src.length then
        .ok ({ fr with opstack := fr.opstack.push .u64 ((c1.base + offset.toNat : Nat) : Int) }, c1)
      else .error "getptr out of bounds"

/-- `Frame::astore::<T>`: pop `data`, `offset`, `ptr` and write the
bytes into the heap; "no write" when the address is unknown, and an
out-of-range copy is the Rust slice panic. -/
def Frame.astoreOp (t : NumTy) (fr : Frame) (h : Heap) :
    Except String (Frame × Heap) :=
  let (data, s1) := fr.opstack.pop t
  let (offset, s2) := s1.pop .u64
  let (ptr, s3) := s2.pop .u64
  match h.findByAddr ptr.toNat with
  | none => .error "no write"
  | some (id, alc) =>
      if offset.toNat + t.size ≤ alc.mem.length then
        let alc1 : Allocation :=
          { alc with mem := writeBytes alc.mem offset.toNat (t.encode data) }
        let h1 : Heap := { h with allocations := h.allocations.set id alc1 }
        .ok ({ fr with opstack := s3 }, h1)
      else .error "heap write out of bounds"

/-- `Frame::aload::<T>`: pop `offset`, `ptr`, read `T::SIZE` bytes from
the heap and push the decoded value; "no read" when the address is
unknown. -/
def Frame.aloadOp (t : NumTy) (fr : Frame) (h : Heap) :
    Except String (Frame × Heap) :=
  let (offset, s1) := fr.opstack.pop .u64
  let (ptr, s2) := s1.pop .u64
  match h.findByAddr ptr.toNat with
  | none => .error "no read"
  | some (_, alc) =>
      if offset.toNat + t.size ≤ alc.mem.length then
        let v := t.decode (readBytes alc.mem offset.toNat t.size)
        .ok ({ fr with opstack := s2.push t v }, h)
      else .error "heap read out of bounds"

/-- `Frame::system`: pop the call number; EXIT(1) pops the code and
terminates the process, READ(3)/WRITE(4) pop `(size, ptr, fd)` and
perform host file IO (a null pointer is fatal), OPEN(5) is `todo!()`,
CLOSE(6) and FSYNC(95) pop `fd`; anything else is fatal.  The host
effects are surfaced as events. -/
def Frame.systemOp (fr : Frame) : Except String (Frame × StepEvent) :=
  let (call, s1) := fr.opstack.pop .i32
  if call = 1 then
    let (code, s2) := s1.pop .i32
    .ok ({ fr with opstack := s2 }, .sysExit code)
  else if call = 3 then
    let (size, s2) := s1.pop .u64
    let (ptr, s3) := s2.pop .u64
    let (fd, s4) := s3.pop .i32
    if ptr = 0 then .error "invalid ptr"
    else .ok ({ fr with opstack := s4 }, .sysRead fd ptr.toNat size.toNat)
  else if call = 4 then
    let (size, s2) := s1.pop .u64
    let (ptr, s3) := s2.pop .u64
    let (fd, s4) := s3.pop .i32
    if ptr = 0 then .error "invalid ptr"
    else .ok ({ fr with opstack := s4 }, .sysWrite fd ptr.toNat size.toNat)
  else if call = 5 then .error "system open: todo"
  else if call = 6 then
    let (fd, s2) := s1.pop .i32
    .ok ({ fr with opstack := s2 }, .sysClose fd)
  else if call = 95 then
    let (fd, s2) := s1.pop .i32
    .ok ({ fr with opstack := s2 }, .sysFsync fd)
  else .error "invalid system call"

/-- `Frame::call` (src/frame.rs lines 300 to 312): drain the caller's
operand-stack bytes into fresh callee locals starting at slot 0, clear
the caller's stack, read the 8-byte entry, record `ret` as the position
after that operand, and build the callee with a fresh empty stack. -/
def Frame.call (fr : Frame) (c : Cursor) :
    Except String (Frame × Cursor × FrameResult) :=
  let locals := Locals.dflt.copyFromSlice fr.opstack.asSlice
  let fr1 := { fr with opstack := fr.opstack.clear }
  match c.next .u64 with
  | .error e => .error e
  | .ok (entry, c1) =>
      let callee : Frame :=
        { opstack := OperandStack.dflt, locals := locals,
          entry := entry.toNat, ret := c1.pos }
      .ok (fr1, c1, .Call callee)

/-- `Frame::step` (src/frame.rs lines 59 to 118): one
fetch-decode-dispatch iteration. -/
def Frame.step (fr : Frame) (h : Heap) (c : Cursor) :
    Except String (Frame × Heap × Cursor × StepEvent) :=
  let position := c.pos
  match c.next .u8 with
  | .error e => .error e
  | .ok (opByte, c1) =>
      match decodeOp opByte.toNat with
      | none => .error "invalid opcode"
      | some op =>
          let contOf : Except String (Frame × Cursor) →
              Except String (Frame × Heap × Cursor × StepEvent) := fun r =>
            match r with
            | .error e => .error e
            | .ok (fr1, c2) => .ok (fr1, h, c2, .cont)
          let contHeap : Except String (Frame × Heap) →
              Except String (Frame × Heap × Cursor × StepEvent) := fun r =>
            match r with
            | .error e => .error e
            | .ok (fr1, h1) => .ok (fr1, h1, c1, .cont)
          let stackOnly : OperandStack →
              Except String (Frame × Heap × Cursor × StepEvent) := fun s =>
            .ok ({ fr with opstack := s }, h, c1, .cont)
          match op with
          | .ALoad => contHeap (fr.aloadOp .i32 h)
          | .ALoadB => contHeap (fr.aloadOp .i8 h)
          | .ALoadD => contHeap (fr.aloadOp .i64 h)
          | .AStore => contHeap (fr.astoreOp .i32 h)
          | .AStoreB => contHeap (fr.astoreOp .i8 h)
          | .AStoreD => contHeap (fr.astoreOp .i64 h)
          | .Add => stackOnly (fr.opstack.add .i32)
          | .AddB => stackOnly (fr.opstack.add .i8)
          | .AddD => stackOnly (fr.opstack.add .i64)
          | .Alloc =>
              let (fr1, h1) := fr.allocOp h
              .ok (fr1, h1, c1, .cont)
          | .Cmp => stackOnly (fr.opstack.cmp .i32)
          | .CmpD => stackOnly (fr.opstack.cmp .i64)
          | .DataPtr => contOf (fr.dataptrOp c1)
          | .Div => stackOnly (fr.opstack.div .i32)
          | .DivD => stackOnly (fr.opstack.div .i64)
          | .Dup => stackOnly (fr.opstack.dup .i32)
          | .DupD => stackOnly (fr.opstack.dup .i64)
          | .Free => contHeap (fr.freeOp h)
          | .Get => contOf (fr.getOp .i32 c1)
          | .GetB => contOf (fr.getOp .i8 c1)
          | .GetD => contOf (fr.getOp .i64 c1)
          | .Jmp => contOf (fr.jmp c1 [])
          | .JmpEq => contOf (fr.jmp c1 [0])
          | .JmpGe => contOf (fr.jmp c1 [1, 0])
          | .JmpGt => contOf (fr.jmp c1 [1])
          | .JmpLe => contOf (fr.jmp c1 [-1, 0])
          | .JmpLt => contOf (fr.jmp c1 [-1])
          | .JmpNe => contOf (fr.jmp c1 [1, -1])
          | .Load => contOf (fr.loadOp .i32 c1)
          | .LoadB => contOf (fr.loadOp .i8 c1)
          | .LoadD => contOf (fr.loadOp .i64 c1)
          | .Mul => stackOnly (fr.opstack.mul .i32)
          | .MulD => stackOnly (fr.opstack.mul .i64)
          | .Ptr => .error "unhandled opcode"
          | .Pop => stackOnly (fr.opstack.discard .i32)
          | .PopB => stackOnly (fr.opstack.discard .i8)
          | .PopD => stackOnly (fr.opstack.discard .i64)
          | .Push => contOf (fr.pushOp .i32 c1)
          | .PushB => contOf (fr.pushOp .i8 c1)
          | .PushD => contOf (fr.pushOp .i64 c1)
          | .Read => .error "unhandled opcode"
          | .Store => contOf (fr.storeOp .i32 c1)
          | .StoreB => contOf (fr.storeOp .i8 c1)
          | .StoreD => contOf (fr.storeOp .i64 c1)
          | .Sub => stackOnly (fr.opstack.sub .i32)
          | .SubB => stackOnly (fr.opstack.sub .i8)
          | .SubD => stackOnly (fr.opstack.sub .i64)
          | .System =>
              match fr.systemOp with
              | .error e => .error e
              | .ok (fr1, ev) => .ok (fr1, h, c1, ev)
          | .Write => .error "unhandled opcode"
          | .Call =>
              match fr.call c1 with
              | .error e => .error e
              | .ok (fr1, c2, res) => .ok (fr1, h, c2, .fr res)
          | .Panic => .ok (fr, h, c1, .fr (.Panic position))
          | .Ret => .ok (fr, h, c1, .fr (.Ret position))
          | .RetW => .ok (fr, h, c1, .fr (.RetW position))
          | .RetD => .ok (fr, h, c1, .fr (.RetD position))

/-- The condition sets of the jump dispatch (src/frame.rs lines 84 to
90): `Jmp` has no conditions, `JmpEq` jumps on Equal (0), `JmpGe` on
Greater or Equal (1, 0), `JmpGt` on Greater (1), `JmpLe` on Less or
Equal (-1, 0), `JmpLt` on Less (-1), `JmpNe` on Greater or Less (1, -1);
`none` for non-jump opcodes. -/
def jmpConditions : Bytecode → Option (List Int)
  | .Jmp => some []
  | .JmpEq => some [0]
  | .JmpGe => some [1, 0]
  | .JmpGt => some [1]
  | .JmpLe => some [-1, 0]
  | .JmpLt => some [-1]
  | .JmpNe => some [1, -1]
  | _ => none

/-! ### Concrete fixtures for witnesses and counterexamples -/

/-- A frame with the 4-byte value 7 pushed (caller state for the C1
witness). -/
def frC1 : Frame :=
  { opstack := OperandStack.push .i32 7 OperandStack.dflt,
    locals := Locals.dflt, entry := 0, ret := 0 }

/-- A 9-byte image: the `Call` opcode (discriminant 49) followed by the
8-byte operand 20. -/
def cC1 : Cursor := { src := 49 :: natToLe 8 20, pos := 0, base := 0 }

/-- A frame with the 4-byte comparison result -1 pushed (for the C3
witness). -/
def frC3 : Frame :=
  { opstack := OperandStack.push .i32 (-1) OperandStack.dflt,
    locals := Locals.dflt, entry := 0, ret := 0 }

/-- A 9-byte image: the `JmpLt` opcode (discriminant 26) followed by the
8-byte target 20. -/
def cC3 : Cursor := { src := 26 :: natToLe 8 20, pos := 0, base := 0 }

/-! ### Image container (src/output.rs `Output`)

`labels` is the label table in the HashMap's (arbitrary but fixed)
iteration order: absolute offset paired with the name's UTF-8 bytes.
Names are modelled as byte lists; `String::from_utf8` in `deserialise`
always succeeds on bytes that came from a `String` and is modelled as
the identity on the byte list. -/

/-- The assembled image: label table, entry offset, data and text
bytes (field order as in src/output.rs). -/
structure Output where
  labels : List (Nat × List Nat)
  entry : Nat
  data : List Nat
  text : List Nat
deriving DecidableEq, Repr

/-- A bounded read from a byte stream (the `Bytes` helpers of
src/lib.rs): take `n` bytes or fail with the source's short-read
error. -/
def readN (bs : List Nat) (n : Nat) : Except String (List Nat × List Nat) :=
  if n ≤ bs.length then .ok (bs.take n, bs.drop n)
  else .error "read less than expected bytes"

/-- The offsets loop of `deserialise`: read `n` u64 values. -/
def readOffsets : Nat → List Nat → Except String (List Nat × List Nat)
  | 0, bs => .ok ([], bs)
  | n + 1, bs =>
      match readN bs 8 with
      | .error e => .error e
      | .ok (ob, r) =>
          match readOffsets n r with
          | .error e => .error e
          | .ok (offs, r2) => .ok (leToNat ob :: offs, r2)

/-- The label-values loop of `deserialise`: read `n` length-prefixed
names. -/
def readNames : Nat → List Nat → Except String (List (List Nat) × List Nat)
  | 0, bs => .ok ([], bs)
  | n + 1, bs =>
      match readN bs 2 with
      | .error e => .error e
      | .ok (lb, r) =>
          match readN r (leToNat lb) with
          | .error e => .error e
          | .ok (nm, r2) =>
              match readNames n r2 with
              | .error e => .error e
              | .ok (names, r3) => .ok (nm :: names, r3)

/-- `Output::serialise` (src/output.rs lines 99 to 137): entry u64,
u16-length-prefixed data and text, u16 count plus u64 offsets, u16
count plus u16-length-prefixed names.  `none` models the
`u16::try_from(...).unwrap()` panics when a length exceeds 65535. -/
def Output.serialise (o : Output) : Option (List Nat) :=
  if o.data.length < 65536 ∧ o.text.length < 65536 ∧ o.labels.length < 65536
      ∧ ∀ p ∈ o.labels, (Prod.snd p).length < 65536 then
    some (natToLe 8 o.entry
      ++ (natToLe 2 o.data.length
      ++ (o.data
      ++ (natToLe 2 o.text.length
      ++ (o.text
      ++ (natToLe 2 o.labels.length
      ++ ((o.labels.map Prod.fst).flatMap (fun off => natToLe 8 off)
      ++ (natToLe 2 o.labels.length
      ++ (o.labels.map Prod.snd).flatMap (fun nm => natToLe 2 nm.length ++ nm)))))))))
  else none

/-- The `?` operator on `Result`: propagate the error, else continue. -/
def ebind {A B : Type} (x : Except String A) (f : A → Except String B) : Except String B :=
  match x with
  | .error e => .error e
  | .ok a => f a

/-- `Output::deserialise` (src/output.rs lines 61 to 97): entry, data,
text, the offsets loop, the names loop; the final length comparison
models the source's `assert!`; the label table is rebuilt by zipping
offsets with names; trailing bytes are ignored as in the source. -/
def Output.deserialise (bs : List Nat) : Except String Output :=
  ebind (readN bs 8) fun s1 =>
  ebind (readN s1.2 2) fun s2 =>
  ebind (readN s2.2 (leToNat s2.1)) fun s3 =>
  ebind (readN s3.2 2) fun s4 =>
  ebind (readN s4.2 (leToNat s4.1)) fun s5 =>
  ebind (readN s5.2 2) fun s6 =>
  ebind (readOffsets (leToNat s6.1) s6.2) fun s7 =>
  ebind (readN s7.2 2) fun s8 =>
  ebind (readNames (leToNat s8.1) s8.2) fun s9 =>
  if s7.1.length = s9.1.length then
    .ok { labels := s7.1.zip s9.1, entry := leToNat s1.1, data := s3.1, text := s5.1 }
  else .error "offsets and labels differ in length"

/-- An image whose data section exceeds the u16 length field
(counterexample input for C4 as stated). -/
def bigImage : Output :=
  { labels := [], entry := 0, data := List.replicate 65536 0, text := [] }

/-- A small image exercising every field (witness input for C4). -/
def smallImage : Output :=
  { labels := [(8, [97])], entry := 8, data := [1, 2], text := [42] }

/-! ### The assembler's token stream (the tokeniser embedded in
src/assembler.rs)

Tokens are taken as input to the assembler; the token constructors
mirror the `Token`, `Value` and `Keyword` enums of src/assembler.rs. -/

/-- A literal token value. -/
inductive AValue where
  | num (s : String)
  | str (s : String)
  | char (c : Char)
deriving DecidableEq, Repr

/-- The closed keyword set of the assembler's tokeniser. -/
inductive AKeyword where
  | entry | data | word | dword | byte | string
deriving DecidableEq, Repr

/-- One token. -/
inductive AToken where
  | word (s : String)
  | kw (k : AKeyword)
  | val (v : AValue)
  | dot | colon | eof
deriving DecidableEq, Repr

/-! ### The interpreter's bytecode (src/interpreter.rs `Bytecode`)

This is the enum the assembler emits; its discriminants differ from the
`Bytecode` of src/program.rs. -/

/-- The opcodes of src/interpreter.rs, in declaration order. -/
inductive IBytecode where
  | Push | PushD | PushB | Pop | PopD | PopB
  | Load | LoadD | LoadB | Store | StoreD | StoreB
  | Get | GetD | GetB
  | Add | AddD | AddB | Sub | SubD | SubB | Mul | MulD | Div | DivD
  | Cmp | CmpD | Dup | DupD
  | Jmp | JmpLt | JmpEq | JmpGt | JmpNe
  | Call | Fail | Ret | RetW | RetD
deriving DecidableEq, Repr

/-- Declaration order; an opcode's discriminant is its index here. -/
def iOpcodeList : List IBytecode :=
  [.Push, .PushD, .PushB, .Pop, .PopD, .PopB,
   .Load, .LoadD, .LoadB, .Store, .StoreD, .StoreB,
   .Get, .GetD, .GetB,
   .Add, .AddD, .AddB, .Sub, .SubD, .SubB, .Mul, .MulD, .Div, .DivD,
   .Cmp, .CmpD, .Dup, .DupD,
   .Jmp, .JmpLt, .JmpEq, .JmpGt, .JmpNe,
   .Call, .Fail, .Ret, .RetW, .RetD]

/-- The discriminant (`code as u8`). -/
def IBytecode.code : IBytecode → Nat
  | .Push => 0 | .PushD => 1 | .PushB => 2 | .Pop => 3 | .PopD => 4 | .PopB => 5
  | .Load => 6 | .LoadD => 7 | .LoadB => 8 | .Store => 9 | .StoreD => 10
  | .StoreB => 11 | .Get => 12 | .GetD => 13 | .GetB => 14
  | .Add => 15 | .AddD => 16 | .AddB => 17 | .Sub => 18 | .SubD => 19
  | .SubB => 20 | .Mul => 21 | .MulD => 22 | .Div => 23 | .DivD => 24
  | .Cmp => 25 | .CmpD => 26 | .Dup => 27 | .DupD => 28
  | .Jmp => 29 | .JmpLt => 30 | .JmpEq => 31 | .JmpGt => 32 | .JmpNe => 33
  | .Call => 34 | .Fail => 35 | .Ret => 36 | .RetW => 37 | .RetD => 38

/-- `next_op`'s decoding (`assert!(op <= RetD as u8)` then transmute);
`none` models the assert panic. -/
def iDecodeOp (n : Nat) : Option IBytecode :=
  iOpcodeList.get? n

/-! ### Number parsing (`number.parse::<T>()`) -/

/-- Decimal digits with accumulator; fails on a non-digit. -/
def parseDigitsAux : List Char → Nat → Option Nat
  | [], acc => some acc
  | ch :: rest, acc =>
      if ch.isDigit then parseDigitsAux rest (acc * 10 + (ch.toNat - 48)) else none

/-- Rust's `str::parse` at the integer type `t`: optional minus sign for
the signed types, decimal digits, and the type's range check. -/
def parseNum (t : NumTy) (s : String) : Option Int :=
  match s.toList with
  | [] => none
  | '-' :: ds =>
      if t.signed then
        match ds with
        | [] => none
        | _ =>
            match parseDigitsAux ds 0 with
            | some n =>
                if (n : Int) ≤ (2 : Int) ^ (8 * t.size - 1) then some (-(n : Int)) else none
            | none => none
      else none
  | ds =>
      match parseDigitsAux ds 0 with
      | some n =>
          if t.signed then
            if (n : Int) < (2 : Int) ^ (8 * t.size - 1) then some (n : Int) else none
          else
            if (n : Int) < (2 : Int) ^ (8 * t.size) then some (n : Int) else none
      | none => none

/-- UTF-8 bytes of a string (`String::into_bytes`). -/
def strBytes (s : String) : List Nat :=
  s.toUTF8.toList.map (fun b => b.toNat)

/-! ### The assembler (src/assembler.rs `Assembler`)

State: the emitted program bytes (the 8-byte entry placeholder
included), the label map in insertion order (`HashMap<String, usize>`,
`insert` overwrites), and the unresolved table in insertion order
(`HashMap<usize, String>`; its keys are distinct emission offsets).
The token position is modelled by passing the remaining token list. -/

/-- The assembler state. -/
structure AsmSt where
  program : List Nat
  labels : List (String × Nat)
  unresolved : List (Nat × String)
deriving DecidableEq, Repr

/-- `HashMap::insert` on the label map: overwrite or append. -/
def setAssoc (l : List (String × Nat)) (k : String) (v : Nat) : List (String × Nat) :=
  if l.any (fun p => p.1 = k) then
    l.map (fun p => if p.1 = k then (k, v) else p)
  else l ++ [(k, v)]

/-- `HashMap::get` on the label map. -/
def lookupAssoc (l : List (String × Nat)) (k : String) : Option Nat :=
  (l.find? (fun p => p.1 = k)).map (fun p => p.2)

/-- `assemble_label` (src/assembler.rs lines 411 to 422): consume a
word, record the emission offset as unresolved, and emit an 8-byte zero
placeholder; any other token is an error. -/
def assembleLabel (toks : List AToken) (st : AsmSt) : Option (List AToken × AsmSt) :=
  match toks with
  | .word label :: rest =>
      some (rest,
        { st with
            unresolved := st.unresolved ++ [(st.program.length, label)],
            program := st.program ++ List.replicate 8 0 })
  | _ => none

/-- `assemble_operator`: emit the opcode byte. -/
def assembleOperator (st : AsmSt) (code : IBytecode) : AsmSt :=
  { st with program := st.program ++ [code.code] }

/-- `assemble_operator_with_operand::<T>`: emit the opcode, then a
number token parsed at `T` (little-endian emitted), or, when `T` is 8
bytes wide and a word follows, a label placeholder. -/
def assembleOperatorWithOperand (t : NumTy) (code : IBytecode)
    (toks : List AToken) (st : AsmSt) : Option (List AToken × AsmSt) :=
  let st1 := assembleOperator st code
  match toks with
  | .val (.num s) :: rest =>
      match parseNum t s with
      | some v => some (rest, { st1 with program := st1.program ++ intToLe t.size v })
      | none => none
  | .word _ :: _ => if t.size = 8 then assembleLabel toks st1 else none
  | _ => none

/-- `assemble_operator_with_label`: opcode byte then label placeholder. -/
def assembleOperatorWithLabel (code : IBytecode) (toks : List AToken)
    (st : AsmSt) : Option (List AToken × AsmSt) :=
  assembleLabel toks (assembleOperator st code)

/-- The operand shape a mnemonic requires. -/
inductive OperandKind where
  | plain
  | imm (t : NumTy)
  | label
deriving DecidableEq, Repr

/-- The mnemonic table of `assemble_instruction` (src/assembler.rs
lines 331 to 376): opcode and operand shape per mnemonic; `none` for
unknown mnemonics and for the `todo!()` arms ret.d and ret.b. -/
def mnemonicSpec : String → Option (IBytecode × OperandKind)
  | "push" => some (.Push, .imm .i32)
  | "push.d" => some (.PushD, .imm .i64)
  | "push.b" => some (.PushB, .imm .i8)
  | "pop" => some (.Pop, .plain)
  | "pop.d" => some (.PopD, .plain)
  | "pop.b" => some (.PopB, .plain)
  | "load" => some (.Load, .imm .u64)
  | "load.d" => some (.LoadD, .imm .u64)
  | "load.b" => some (.LoadB, .imm .u64)
  | "store" => some (.Store, .imm .u64)
  | "store.d" => some (.StoreD, .imm .u64)
  | "store.b" => some (.StoreB, .imm .u64)
  | "get" => some (.Get, .imm .u64)
  | "get.d" => some (.GetD, .imm .u64)
  | "get.b" => some (.GetB, .imm .u64)
  | "add" => some (.Add, .plain)
  | "add.d" => some (.AddD, .plain)
  | "add.b" => some (.AddB, .plain)
  | "sub" => some (.Sub, .plain)
  | "sub.d" => some (.SubD, .plain)
  | "sub.b" => some (.SubB, .plain)
  | "mul" => some (.Mul, .plain)
  | "mul.d" => some (.MulD, .plain)
  | "div" => some (.Div, .plain)
  | "div.d" => some (.DivD, .plain)
  | "cmp" => some (.Cmp, .imm .i32)
  | "cmp.d" => some (.CmpD, .imm .i64)
  | "dup" => some (.Dup, .plain)
  | "dup.d" => some (.DupD, .plain)
  | "fail" => some (.Fail, .plain)
  | "ret" => some (.Ret, .plain)
  | "call" => some (.Call, .label)
  | "jmp" => some (.Jmp, .label)
  | "jmp.lt" => some (.JmpLt, .label)
  | "jmp.gt" => some (.JmpGt, .label)
  | "jmp.eq" => some (.JmpEq, .label)
  | "jmp.ne" => some (.JmpNe, .label)
  | _ => none

/-- `assemble_instruction`: dispatch per the mnemonic table. -/
def assembleInstruction (w : String) (toks : List AToken) (st : AsmSt) :
    Option (List AToken × AsmSt) :=
  match mnemonicSpec w with
  | none => none
  | some (code, .plain) => some (toks, assembleOperator st code)
  | some (code, .imm t) => assembleOperatorWithOperand t code toks st
  | some (code, .label) => assembleOperatorWithLabel code toks st

/-- Width of a data type keyword (byte 1, word 4, dword 8, string 0);
`none` is the "unexpected keyword" error. -/
def kwSize : AKeyword → Option Nat
  | .byte => some 1
  | .word => some 4
  | .dword => some 8
  | .string => some 0
  | _ => none

/-- Bytes emitted for one data value at the declared size, or `none`
when the value does not match the size (including the non-ascii char
byte case; `word` accepts a char re-encoded as its 32-bit code point). -/
def dataBytes (size : Nat) (v : AValue) : Option (List Nat) :=
  match v, size with
  | .num s, 1 => (parseNum .i8 s).map (fun x => intToLe 1 x)
  | .num s, 4 => (parseNum .i32 s).map (fun x => intToLe 4 x)
  | .num s, 8 => (parseNum .i64 s).map (fun x => intToLe 8 x)
  | .char ch, 1 => if ch.toNat < 128 then some [ch.toNat] else none
  | .char ch, 4 => some (natToLe 4 ch.toNat)
  | .str sv, 0 => some (strBytes sv)
  | _, _ => none

/-- `assemble_data` (src/assembler.rs lines 273 to 329): a name (a
duplicate of any existing label is fatal), a dot, a type keyword, then
an optional literal value; without a value the declared width is
zero-filled. -/
def assembleData (toks : List AToken) (st : AsmSt) : Option (List AToken × AsmSt) :=
  match toks with
  | .word name :: .dot :: .kw k :: rest =>
      if st.labels.any (fun p => p.1 = name) then none
      else
        let st1 := { st with labels := setAssoc st.labels name st.program.length }
        match kwSize k with
        | none => none
        | some size =>
            match rest with
            | .val v :: rest2 =>
                match dataBytes size v with
                | some bs => some (rest2, { st1 with program := st1.program ++ bs })
                | none => none
            | _ => some (rest, { st1 with program := st1.program ++ List.replicate size 0 })
  | _ => none

/-- Pass 1 of `assemble` (the while loop of src/assembler.rs lines 236
to 252): labels, instructions and data directives.  The fuel argument
only bounds the recursion; each iteration consumes at least one token,
so `tokens.length + 1` fuel never runs out. -/
def pass1Loop : Nat → List AToken → AsmSt → Option AsmSt
  | 0, _, _ => none
  | _ + 1, [], st => some st
  | fuel + 1, .word w :: rest, st =>
      match rest with
      | .colon :: rest2 =>
          pass1Loop fuel rest2 { st with labels := setAssoc st.labels w st.program.length }
      | _ =>
          match assembleInstruction w rest st with
          | some (rest2, st2) => pass1Loop fuel rest2 st2
          | none => none
  | fuel + 1, .dot :: rest, st =>
      match rest with
      | .kw .data :: rest2 =>
          match assembleData rest2 st with
          | some (rest3, st3) => pass1Loop fuel rest3 st3
          | none => none
      | _ => none
  | _ + 1, .eof :: _, st => some st
  | _ + 1, _ :: _, _ => none

/-- The `.entry` prelude plus pass 1: expect a dot and the entry
keyword, record the entry label (as the unresolved entry for the 8-byte
header placeholder), then run the loop. -/
def assemblePass1 (toks : List AToken) : Option AsmSt :=
  match toks with
  | .dot :: .kw .entry :: rest =>
      match assembleLabel rest { program := [], labels := [], unresolved := [] } with
      | some (rest2, st1) => pass1Loop (rest2.length + 1) rest2 st1
      | none => none
  | _ => none

/-- Pass 2 (src/assembler.rs lines 254 to 259): for each unresolved
entry write the 8-byte little-endian recorded offset of the label;
an unbound label is fatal. -/
def backpatch : List (Nat × String) → List (String × Nat) → List Nat → Option (List Nat)
  | [], _, prog => some prog
  | (i, name) :: rest, labels, prog =>
      match lookupAssoc labels name with
      | some off => backpatch rest labels (writeBytes prog i (natToLe 8 off))
      | none => none

/-- `Assembler::assemble` (src/assembler.rs lines 232 to 262): pass 1
then back-patching. -/
def asmAssemble (toks : List AToken) : Option (List Nat) :=
  match assemblePass1 toks with
  | some st => backpatch st.unresolved st.labels st.program
  | none => none

/-- The spec's pass-2 resolution rule (section 4.2), stated from the
spec's words for comparison with the implementation:
absolute(label) = 8 + offset_within_section + (data_length if the label
is in the text section else 0). -/
def specAbsolute (inText : Bool) (offsetWithinSection dataLength : Nat) : Nat :=
  8 + offsetWithinSection + (if inText then dataLength else 0)

/-! ### The old interpreter (src/interpreter.rs)

`Frame`, `FrameResult`, `Program` and `Interpreter` of
src/interpreter.rs.  The frame stack is a list with the top at the
head (the Rust `Vec` pushes and pops at its end).  Frame runs are
bounded by fuel; the concrete theorems supply ample fuel. -/

/-- The old interpreter's frame: no heap reference. -/
structure IFrame where
  opstack : OperandStack
  locals : Locals
  entry : Nat
  ret : Nat
deriving DecidableEq, Repr

/-- The old `FrameResult` (no positions). -/
inductive IFrameResult where
  | Call (f : IFrame)
  | Ret
  | RetW
  | RetD
  | Fail
deriving DecidableEq, Repr

/-- `Program::next` of src/interpreter.rs: a full read advances, an
empty read is the short-read error, and a partial read trips the
source's `assert_eq!(n, 0)` (modelled as a distinct error). -/
def iNext (t : NumTy) (c : Cursor) : Except String (Int × Cursor) :=
  if c.pos + t.size ≤ c.src.length then
    .ok (t.decode (readBytes c.src c.pos t.size), { c with pos := c.pos + t.size })
  else if c.src.length ≤ c.pos then .error "read less than expected bytes"
  else .error "partial read"

/-- `Program::next_op`: read a byte and decode it. -/
def iNextOp (c : Cursor) : Except String (IBytecode × Cursor) :=
  match iNext .u8 c with
  | .error e => .error e
  | .ok (b, c1) =>
      match iDecodeOp b.toNat with
      | some op => .ok (op, c1)
      | none => .error "invalid opcode"

/-- `Program::get::<T>(offset)`: random read from the image; the error
models the Rust slice panic past the end. -/
def iGet (t : NumTy) (c : Cursor) (offset : Nat) : Except String Int :=
  if offset + t.size ≤ c.src.length then
    .ok (t.decode (readBytes c.src offset t.size))
  else .error "program read out of bounds"

/-- Outcome of running one frame: a frame result with the final frame
and cursor, or a propagated error with the cursor where it happened. -/
inductive IRunOut where
  | done (fr : IFrame) (c : Cursor) (res : IFrameResult)
  | err (e : String) (c : Cursor)
deriving DecidableEq, Repr

/-- `Frame::run` of src/interpreter.rs (lines 186 to 316): the
fetch-decode-dispatch loop, one opcode per iteration, until a
`FrameResult`. -/
def iFrameRun : Nat → IFrame → Cursor → IRunOut
  | 0, _, c => .err "out of fuel" c
  | fuel + 1, fr, c =>
      match iNextOp c with
      | .error e => .err e c
      | .ok (op, c1) =>
          match op with
          | .Push =>
              match iNext .i32 c1 with
              | .error e => .err e c1
              | .ok (v, c2) =>
                  iFrameRun fuel { fr with opstack := fr.opstack.push .i32 v } c2
          | .PushD =>
              match iNext .i64 c1 with
              | .error e => .err e c1
              | .ok (v, c2) =>
                  iFrameRun fuel { fr with opstack := fr.opstack.push .i64 v } c2
          | .PushB =>
              match iNext .i8 c1 with
              | .error e => .err e c1
              | .ok (v, c2) =>
                  iFrameRun fuel { fr with opstack := fr.opstack.push .i8 v } c2
          | .Pop => iFrameRun fuel { fr with opstack := (fr.opstack.pop .i32).2 } c1
          | .PopD => iFrameRun fuel { fr with opstack := (fr.opstack.pop .i64).2 } c1
          | .PopB => iFrameRun fuel { fr with opstack := (fr.opstack.pop .i8).2 } c1
          | .Load =>
              match iNext .u64 c1 with
              | .error e => .err e c1
              | .ok (i, c2) =>
                  iFrameRun fuel
                    { fr with opstack := fr.opstack.push .i32 (fr.locals.read .i32 i.toNat) } c2
          | .LoadD =>
              match iNext .u64 c1 with
              | .error e => .err e c1
              | .ok (i, c2) =>
                  iFrameRun fuel
                    { fr with opstack := fr.opstack.push .i64 (fr.locals.read .i64 i.toNat) } c2
          | .LoadB =>
              match iNext .u64 c1 with
              | .error e => .err e c1
              | .ok (i, c2) =>
                  iFrameRun fuel
                    { fr with opstack := fr.opstack.push .i8 (fr.locals.read .i8 i.toNat) } c2
          | .Store =>
              match iNext .u64 c1 with
              | .error e => .err e c1
              | .ok (i, c2) =>
                  let (v, s1) := fr.opstack.pop .i32
                  iFrameRun fuel
                    { fr with opstack := s1, locals := fr.locals.write .i32 i.toNat v } c2
          | .StoreD =>
              match iNext .u64 c1 with
              | .error e => .err e c1
              | .ok (i, c2) =>
                  let (v, s1) := fr.opstack.pop .i64
                  iFrameRun fuel
                    { fr with opstack := s1, locals := fr.locals.write .i64 i.toNat v } c2
          | .StoreB =>
              match iNext .u64 c1 with
              | .error e => .err e c1
              | .ok (i, c2) =>
                  let (v, s1) := fr.opstack.pop .i8
                  iFrameRun fuel
                    { fr with opstack := s1, locals := fr.locals.write .i8 i.toNat v } c2
          | .Get =>
              let (ptr, s1) := fr.opstack.pop .u64
              match iNext .u64 c1 with
              | .error e => .err e c1
              | .ok (offset, c2) =>
                  match iGet .i32 c2 (ptr + offset).toNat with
                  | .error e => .err e c2
                  | .ok v => iFrameRun fuel { fr with opstack := s1.push .i32 v } c2
          | .GetD =>
              let (ptr, s1) := fr.opstack.pop .u64
              match iNext .u64 c1 with
              | .error e => .err e c1
              | .ok (offset, c2) =>
                  match iGet .i64 c2 (ptr + offset).toNat with
                  | .error e => .err e c2
                  | .ok v => iFrameRun fuel { fr with opstack := s1.push .i64 v } c2
          | .GetB =>
              let (ptr, s1) := fr.opstack.pop .u64
              match iNext .u64 c1 with
              | .error e => .err e c1
              | .ok (offset, c2) =>
                  match iGet .i8 c2 (ptr + offset).toNat with
                  | .error e => .err e c2
                  | .ok v => iFrameRun fuel { fr with opstack := s1.push .i8 v } c2
          | .Add => iFrameRun fuel { fr with opstack := fr.opstack.add .i32 } c1
          | .AddD => iFrameRun fuel { fr with opstack := fr.opstack.add .i64 } c1
          | .AddB => iFrameRun fuel { fr with opstack := fr.opstack.add .i8 } c1
          | .Sub => iFrameRun fuel { fr with opstack := fr.opstack.sub .i32 } c1
          | .SubD => iFrameRun fuel { fr with opstack := fr.opstack.sub .i64 } c1
          | .SubB => iFrameRun fuel { fr with opstack := fr.opstack.sub .i8 } c1
          | .Mul => iFrameRun fuel { fr with opstack := fr.opstack.mul .i32 } c1
          | .MulD => iFrameRun fuel { fr with opstack := fr.opstack.mul .i64 } c1
          | .Div => iFrameRun fuel { fr with opstack := fr.opstack.div .i32 } c1
          | .DivD => iFrameRun fuel { fr with opstack := fr.opstack.div .i64 } c1
          | .Cmp => iFrameRun fuel { fr with opstack := fr.opstack.cmp .i32 } c1
          | .CmpD => iFrameRun fuel { fr with opstack := fr.opstack.cmp .i64 } c1
          | .Dup => iFrameRun fuel { fr with opstack := fr.opstack.dup .i32 } c1
          | .DupD => iFrameRun fuel { fr with opstack := fr.opstack.dup .i64 } c1
          | .Jmp =>
              match iNext .u64 c1 with
              | .error e => .err e c1
              | .ok (pos, c2) => iFrameRun fuel fr (c2.setPosition pos.toNat)
          | .JmpEq =>
              match iNext .u64 c1 with
              | .error e => .err e c1
              | .ok (pos, c2) =>
                  let (v, s1) := fr.opstack.pop .i32
                  let fr1 := { fr with opstack := s1 }
                  if v = 0 then iFrameRun fuel fr1 (c2.setPosition pos.toNat)
                  else iFrameRun fuel fr1 c2
          | .JmpNe =>
              match iNext .u64 c1 with
              | .error e => .err e c1
              | .ok (pos, c2) =>
                  let (v, s1) := fr.opstack.pop .i32
                  let fr1 := { fr with opstack := s1 }
                  if v ≠ 0 then iFrameRun fuel fr1 (c2.setPosition pos.toNat)
                  else iFrameRun fuel fr1 c2
          | .JmpLt =>
              match iNext .u64 c1 with
              | .error e => .err e c1
              | .ok (pos, c2) =>
                  let (v, s1) := fr.opstack.pop .i32
                  let fr1 := { fr with opstack := s1 }
                  if v = -1 then iFrameRun fuel fr1 (c2.setPosition pos.toNat)
                  else iFrameRun fuel fr1 c2
          | .JmpGt =>
              match iNext .u64 c1 with
              | .error e => .err e c1
              | .ok (pos, c2) =>
                  let (v, s1) := fr.opstack.pop .i32
                  let fr1 := { fr with opstack := s1 }
                  if v = 1 then iFrameRun fuel fr1 (c2.setPosition pos.toNat)
                  else iFrameRun fuel fr1 c2
          | .Call =>
              let locals := Locals.dflt.copyFromSlice fr.opstack.asSlice
              let fr1 := { fr with opstack := fr.opstack.clear }
              match iNext .u64 c1 with
              | .error e => .err e c1
              | .ok (entry, c2) =>
                  let callee : IFrame :=
                    { opstack := OperandStack.dflt, locals := locals,
                      entry := entry.toNat, ret := c2.pos }
                  .done fr1 c2 (.Call callee)
          | .Fail => .done fr c1 .Fail
          | .Ret => .done fr c1 .Ret
          | .RetW => .done fr c1 .RetW
          | .RetD => .done fr c1 .RetD

/-- The old interpreter state: program cursor and frame stack (top at
the head). -/
structure IInterp where
  pc : Cursor
  frames : List IFrame
deriving DecidableEq, Repr

/-- `Interpreter::new` (src/interpreter.rs lines 325 to 336): read the
8-byte entry, position the cursor there, push the main frame. -/
def iInterpNew (program : List Nat) : Except String IInterp :=
  match iNext .u64 { src := program, pos := 0, base := 0 } with
  | .error e => .error e
  | .ok (entry, c1) =>
      .ok { pc := c1.setPosition entry.toNat,
            frames := [{ opstack := OperandStack.dflt, locals := Locals.dflt,
                         entry := entry.toNat, ret := 0 }] }

/-- Ret, RetW and RetD (the entry-frame break guard). -/
def isRetLike : IFrameResult → Bool
  | .Ret | .RetW | .RetD => true
  | _ => false

/-- `Interpreter::run` (src/interpreter.rs lines 342 to 377): pop the
top frame, run it, and dispatch its result; on `Fail` the loop returns
the fatal error with the popped frame dropped. -/
def iInterpRun : Nat → IInterp → IInterp × Except String Unit
  | 0, st => (st, .error "out of fuel")
  | fuel + 1, st =>
      match st.frames with
      | [] => (st, .ok ())
      | current :: rest =>
          match iFrameRun fuel current st.pc with
          | .err e c2 => ({ pc := c2, frames := rest }, .error e)
          | .done fr c2 res =>
              if isRetLike res ∧ rest.isEmpty then
                ({ pc := c2, frames := fr :: rest }, .ok ())
              else
                match res with
                | .Call next =>
                    iInterpRun fuel
                      { pc := c2.setPosition next.entry, frames := next :: fr :: rest }
                | .Ret => iInterpRun fuel { pc := c2.setPosition fr.ret, frames := rest }
                | .RetW =>
                    match rest with
                    | caller :: rest2 =>
                        let (v, _) := fr.opstack.pop .i32
                        iInterpRun fuel
                          { pc := c2.setPosition fr.ret,
                            frames := { caller with opstack := caller.opstack.push .i32 v } :: rest2 }
                    | [] => ({ pc := c2, frames := [] }, .error "no caller frame")
                | .RetD =>
                    match rest with
                    | caller :: rest2 =>
                        let (v, _) := fr.opstack.pop .i64
                        iInterpRun fuel
                          { pc := c2.setPosition fr.ret,
                            frames := { caller with opstack := caller.opstack.push .i64 v } :: rest2 }
                    | [] => ({ pc := c2, frames := [] }, .error "no caller frame")
                | .Fail => ({ pc := c2, frames := rest }, .error "FAILED")

/-! ### Disassembly mnemonics (src/output.rs `fmt_text`)

The word printed for each opcode by `Output::fmt_text` (lines 218 to
258): note it prints "push" for `PushB`.  The opcodes the snapshot's
match does not cover (`ALoad*`, `AStore*`, `Alloc`, `DataPtr`, `Free`,
`System`, `JmpGe`, `JmpLe`, `Ptr`, `Read`, `Write`) are modelled from
the spec's mnemonic table (section 4.1) and the Display impl of
src/program.rs; no theorem evaluates those arms. -/

/-- The mnemonic `fmt_text` writes for an opcode. -/
def fmtTextWord : Bytecode → String
  | .Push => "push"
  | .PushD => "push.d"
  | .PushB => "push"
  | .Pop => "pop"
  | .PopD => "pop.d"
  | .PopB => "pop.b"
  | .Load => "load"
  | .LoadD => "load.d"
  | .LoadB => "load.b"
  | .Store => "store"
  | .StoreD => "store.d"
  | .StoreB => "store.b"
  | .Get => "get"
  | .GetD => "get.d"
  | .GetB => "get.b"
  | .Add => "add"
  | .AddD => "add.d"
  | .AddB => "add.b"
  | .Sub => "sub"
  | .SubD => "sub.d"
  | .SubB => "sub.b"
  | .Mul => "mul"
  | .MulD => "mul.d"
  | .Div => "div"
  | .DivD => "div.d"
  | .Cmp => "cmp"
  | .CmpD => "cmp.d"
  | .Dup => "dup"
  | .DupD => "dup.d"
  | .Jmp => "jmp"
  | .JmpLt => "jmp.lt"
  | .JmpEq => "jmp.eq"
  | .JmpGt => "jmp.gt"
  | .JmpNe => "jmp.ne"
  | .Call => "call"
  | .Panic => "panic"
  | .Ret => "ret"
  | .RetW => "ret.w"
  | .RetD => "ret.d"
  | .ALoad => "aload"
  | .ALoadB => "aload.b"
  | .ALoadD => "aload.d"
  | .AStore => "astore"
  | .AStoreB => "astore.b"
  | .AStoreD => "astore.d"
  | .Alloc => "alloc"
  | .DataPtr => "data"
  | .Free => "free"
  | .System => "system"
  | .JmpGe => "jmp.ge"
  | .JmpLe => "jmp.le"
  | .Ptr => "ptr"
  | .Read => "read"
  | .Write => "write"

/-- The operand type `fmt_text` reads for an opcode (the `T` of
`fmt_with_operand::<T>`), `none` for operand-less opcodes. -/
def fmtTextOperandTy : Bytecode → Option NumTy
  | .Push => some .i32
  | .PushD => some .i64
  | .PushB => some .i8
  | .Load | .LoadD | .LoadB => some .u64
  | .Store | .StoreD | .StoreB => some .u64
  | .Get | .GetD | .GetB => some .u64
  | .Jmp | .JmpLt | .JmpEq | .JmpGt | .JmpNe => some .u64
  | .Call => some .u64
  | _ => none

/-! ### Debugger breakpoint state (src/debugger.rs)

Only the fields the two cited functions touch: the breakpoint set
(`HashSet<u64>`) and the position-to-line map (`HashMap<u64, usize>`).
The remaining fields (interpreter, output, disassembly text) are not
read nor written by `set_breakpoint`/`delete_breakpoint`. -/

/-- Breakpoint-relevant debugger state. -/
structure Debugger where
  breakpoints : List Nat
  lines : List (Nat × Nat)
deriving DecidableEq, Repr

/-- `HashSet::insert`. -/
def insertSet (l : List Nat) (x : Nat) : List Nat :=
  if l.contains x then l else l ++ [x]

/-- `HashMap::remove` on the line map. -/
def removeLine (l : List (Nat × Nat)) (k : Nat) : List (Nat × Nat) :=
  l.filter (fun p => p.1 ≠ k)

/-- `HashMap::get` on the line map. -/
def lookupLine (l : List (Nat × Nat)) (k : Nat) : Option Nat :=
  (l.find? (fun p => p.1 = k)).map (fun p => p.2)

/-- `Debugger::set_breakpoint` (src/debugger.rs lines 156 to 163):
validate the position against the line map, then insert it into the
breakpoint set. -/
def Debugger.setBreakpoint (d : Debugger) (position : Nat) : Option Debugger :=
  match lookupLine d.lines position with
  | some _ => some { d with breakpoints := insertSet d.breakpoints position }
  | none => none

/-- `Debugger::delete_breakpoint` (src/debugger.rs lines 165 to 167):
the body is `self.lines.remove(&position)`; the breakpoint set is not
touched. -/
def Debugger.deleteBreakpoint (d : Debugger) (position : Nat) : Debugger :=
  { d with lines := removeLine d.lines position }

/-! ### Fixtures for the assembler and interpreter claims -/

/-- Tokens of the source ".entry main / main: ret / .data x .word"
(instructions before the data directive; counterexample input for
C6). -/
def c6toks : List AToken :=
  [.dot, .kw .entry, .word "main", .word "main", .colon, .word "ret",
   .dot, .kw .data, .word "x", .dot, .kw .word, .eof]

/-- Tokens of the source ".entry main / main: ret" (witness input for
C6). -/
def c6wtoks : List AToken :=
  [.dot, .kw .entry, .word "main", .word "main", .colon, .word "ret", .eof]

/-- Tokens of the source ".entry main / main: ret / main: ret" (the
same text label declared twice; counterexample input for C7). -/
def c7toks : List AToken :=
  [.dot, .kw .entry, .word "main", .word "main", .colon, .word "ret",
   .word "main", .colon, .word "ret", .eof]

/-- Image bytes for C8: entry 8, then push 7, then the fail opcode. -/
def progC8 : List Nat :=
  natToLe 8 8 ++ [0, 7, 0, 0, 0, 35]

/-- The invariant pass 1 maintains for pass 2: every unresolved
placeholder names a full 8-byte slot inside the emitted program, and
placeholders were recorded at increasing, non-overlapping offsets. -/
def WfAsm (st : AsmSt) : Prop :=
  (∀ p ∈ st.unresolved, p.1 + 8 ≤ st.program.length) ∧
  List.Pairwise (fun a b => a.1 + 8 ≤ b.1) st.unresolved

/-! ## Theorems -/


theorem length_natToLe (w n : Nat) : (natToLe w n).length = w := by
  induction w generalizing n with
  | zero => rfl
  | succ w ih => simp [natToLe, ih]

theorem leToNat_natToLe (w n : Nat) : leToNat (natToLe w n) = n % 256 ^ w := by
  induction w generalizing n with
  | zero => simp [natToLe, leToNat, Nat.mod_one]
  | succ w ih =>
      have hdvd : (256 : Nat) ∣ 256 ^ (w + 1) := ⟨256 ^ w, by ring⟩
      have h1 : n % 256 ^ (w + 1) % 256 = n % 256 := Nat.mod_mod_of_dvd n hdvd
      have h2 : n % 256 ^ (w + 1) / 256 = n / 256 % 256 ^ w := by
        have := Nat.mod_mul_right_div_self n 256 (256 ^ w)
        simpa [pow_succ, mul_comm] using this
      have h3 := Nat.div_add_mod (n % 256 ^ (w + 1)) 256
      simp only [natToLe, leToNat, ih]
      omega

theorem leToNat_natToLe_of_lt {w n : Nat} (h : n < 256 ^ w) :
    leToNat (natToLe w n) = n := by
  rw [leToNat_natToLe, Nat.mod_eq_of_lt h]

theorem pow256_eq_pow2 (w : Nat) : (256 : Nat) ^ w = 2 ^ (8 * w) := by
  rw [show (256 : Nat) = 2 ^ 8 from rfl, ← pow_mul]

/-- Round trip of the signed encode/decode pair on the representable
range, mirroring from_le_bytes after to_le_bytes at the signed Rust
integer types. -/
theorem leToIntS_intToLe {w : Nat} (hw : 0 < w) {v : Int}
    (hlo : -(2 : Int) ^ (8 * w - 1) ≤ v) (hhi : v < (2 : Int) ^ (8 * w - 1)) :
    leToIntS w (intToLe w v) = v := by
  have hM : (0 : Int) < (2 : Int) ^ (8 * w) := by positivity
  have hhalf : (2 : Int) ^ (8 * w) = 2 * (2 : Int) ^ (8 * w - 1) := by
    rw [← pow_succ']
    congr 1
    omega
  have hmod_nonneg : 0 ≤ v % (2 : Int) ^ (8 * w) := Int.emod_nonneg v (by omega)
  have hmod_lt : v % (2 : Int) ^ (8 * w) < (2 : Int) ^ (8 * w) :=
    Int.emod_lt_of_pos v hM
  have htofrom : ((v % (2 : Int) ^ (8 * w)).toNat : Int) = v % (2 : Int) ^ (8 * w) :=
    Int.toNat_of_nonneg hmod_nonneg
  have h256 : (((256 : Nat) ^ w : Nat) : Int) = (2 : Int) ^ (8 * w) := by
    exact_mod_cast congrArg (fun n : Nat => (n : Int)) (pow256_eq_pow2 w)
  have hnat : leToNat (natToLe w (v % (2 : Int) ^ (8 * w)).toNat)
      = (v % (2 : Int) ^ (8 * w)).toNat := by
    apply leToNat_natToLe_of_lt
    have : ((v % (2 : Int) ^ (8 * w)).toNat : Int) < (((256 : Nat) ^ w : Nat) : Int) := by
      rw [htofrom, h256]
      omega
    exact_mod_cast this
  simp only [leToIntS, intToLe]
  rw [hnat]
  rcases le_or_lt 0 v with hv | hv
  · have hvmod : v % (2 : Int) ^ (8 * w) = v := Int.emod_eq_of_lt hv (by omega)
    rw [htofrom, hvmod, if_pos hhi]
  · have hvmod : v % (2 : Int) ^ (8 * w) = v + (2 : Int) ^ (8 * w) := by
      have h1 : (v + (2 : Int) ^ (8 * w)) % (2 : Int) ^ (8 * w)
          = v % (2 : Int) ^ (8 * w) := by
        simpa using Int.add_mul_emod_self_left (a := v) (b := (2 : Int) ^ (8 * w)) (c := 1)
      rw [← h1]
      apply Int.emod_eq_of_lt (by omega) (by omega)
    rw [htofrom, hvmod, if_neg (by omega)]
    omega

/-- Unsigned round trip, mirroring the unsigned Rust integer types. -/
theorem leToNat_intToLe_of_nonneg {w : Nat} {v : Int} (h0 : 0 ≤ v)
    (hv : v < (2 : Int) ^ (8 * w)) :
    (leToNat (intToLe w v) : Int) = v := by
  unfold intToLe
  have h256 : (((256 : Nat) ^ w : Nat) : Int) = (2 : Int) ^ (8 * w) := by
    exact_mod_cast congrArg (fun n : Nat => (n : Int)) (pow256_eq_pow2 w)
  have hvmod : v % (2 : Int) ^ (8 * w) = v := Int.emod_eq_of_lt h0 hv
  rw [hvmod]
  rw [leToNat_natToLe_of_lt]
  · exact Int.toNat_of_nonneg h0
  · have : (v.toNat : Int) < (((256 : Nat) ^ w : Nat) : Int) := by
      rw [Int.toNat_of_nonneg h0, h256]
      omega
    exact_mod_cast this

theorem length_writeBytes {buf src : List Nat} {off : Nat}
    (h : off + src.length ≤ buf.length) :
    (writeBytes buf off src).length = buf.length := by
  simp [writeBytes]
  omega

theorem length_readBytes {buf : List Nat} {off n : Nat}
    (h : off + n ≤ buf.length) : (readBytes buf off n).length = n := by
  simp [readBytes]
  omega

/-- Reading back exactly the just-written range returns the written bytes. -/
theorem readBytes_writeBytes {buf src : List Nat} {off : Nat}
    (h : off ≤ buf.length) :
    readBytes (writeBytes buf off src) off src.length = src := by
  unfold readBytes writeBytes
  have hlen : (buf.take off).length = off := by simp; omega
  rw [List.append_assoc, List.drop_append_eq_append_drop, hlen]
  have h1 : List.drop off (List.take off buf) = [] :=
    List.drop_eq_nil_of_le (by simp)
  rw [h1, Nat.sub_self, List.nil_append, List.drop_zero, List.take_left]

/-- A write at or above `off + n` does not change a read at `off`. -/
theorem readBytes_writeBytes_above {buf src : List Nat} {off n woff : Nat}
    (hle : off + n ≤ woff) (hw : woff ≤ buf.length) :
    readBytes (writeBytes buf woff src) off n = readBytes buf off n := by
  unfold readBytes writeBytes
  have hA : (List.take woff buf).length = woff := by simp; omega
  have h1 : List.drop off (List.take woff buf ++ src ++ List.drop (woff + src.length) buf)
      = List.drop off (List.take woff buf) ++ src ++ List.drop (woff + src.length) buf := by
    rw [List.drop_append_eq_append_drop, List.drop_append_eq_append_drop, hA]
    have e1 : off - (List.take woff buf ++ src).length = 0 := by simp; omega
    have e2 : off - woff = 0 := by omega
    rw [e1, e2, List.drop_zero, List.drop_zero]
  rw [h1]
  have e3 : (List.drop off (List.take woff buf)).length = woff - off := by simp; omega
  have h2 : List.take n (List.drop off (List.take woff buf) ++ src
      ++ List.drop (woff + src.length) buf)
      = List.take n (List.drop off (List.take woff buf)) := by
    rw [List.take_append_eq_append_take, List.take_append_eq_append_take]
    have e4 : n - (List.drop off (List.take woff buf)).length = 0 := by rw [e3]; omega
    have e5 : n - (List.drop off (List.take woff buf) ++ src).length = 0 := by
      simp only [List.length_append, e3]
      omega
    rw [e4, e5, List.take_zero, List.take_zero, List.append_nil, List.append_nil]
  rw [h2, List.drop_take, List.take_take, min_eq_left (by omega)]

/-- A write strictly below `off` does not change a read at `off`. -/
theorem readBytes_writeBytes_below {buf src : List Nat} {off n woff : Nat}
    (hle : woff + src.length ≤ off) (hw : woff + src.length ≤ buf.length) :
    readBytes (writeBytes buf woff src) off n = readBytes buf off n := by
  unfold readBytes writeBytes
  have hAS : (List.take woff buf ++ src).length = woff + src.length := by simp; omega
  have h1 : List.drop off (List.take woff buf ++ src ++ List.drop (woff + src.length) buf)
      = List.drop (off - (woff + src.length)) (List.drop (woff + src.length) buf) := by
    rw [List.drop_append_eq_append_drop, hAS]
    have e0 : List.drop off (List.take woff buf ++ src) = [] :=
      List.drop_eq_nil_of_le (by rw [hAS]; omega)
    rw [e0, List.nil_append]
  rw [h1, List.drop_drop]
  congr 2
  omega

theorem length_encode (t : NumTy) (v : Int) : (t.encode v).length = t.size := by
  simp [NumTy.encode, intToLe, length_natToLe]

theorem take_writeBytes_of_le {buf src : List Nat} {woff n : Nat}
    (h : n ≤ woff) (hw : woff ≤ buf.length) :
    (writeBytes buf woff src).take n = buf.take n := by
  have := @readBytes_writeBytes_above buf src 0 n woff (by omega) hw
  simpa [readBytes] using this

theorem take_writeBytes_full {buf src : List Nat} {off : Nat}
    (h : off ≤ buf.length) :
    (writeBytes buf off src).take (off + src.length) = buf.take off ++ src := by
  unfold writeBytes
  have hAS : (List.take off buf ++ src).length = off + src.length := by simp; omega
  rw [List.take_append_eq_append_take, hAS, Nat.sub_self, List.take_zero,
    List.append_nil]
  exact List.take_of_length_le (le_of_eq hAS)

/-- Signed decode of the encoding, at the level of `NumTy`. -/
theorem decode_encode_signed {t : NumTy} (hs : t.signed = true) (hw : 0 < t.size)
    {v : Int} (h1 : -(2 : Int) ^ (8 * t.size - 1) ≤ v)
    (h2 : v < (2 : Int) ^ (8 * t.size - 1)) :
    t.decode (t.encode v) = v := by
  simp only [NumTy.decode, NumTy.encode, hs, if_pos]
  exact leToIntS_intToLe hw h1 h2

theorem cmpOrd_eq_sign (a b : Int) : cmpOrd a b = Int.sign (a - b) := by
  rcases lt_trichotomy a b with h | h | h
  · rw [Int.sign_eq_neg_one_of_neg (by omega)]
    simp [cmpOrd, h]
  · simp [cmpOrd, h, Int.sign_zero]
  · rw [Int.sign_eq_one_of_pos (by omega)]
    have h1 : ¬ a < b := by omega
    have h2 : ¬ a = b := by omega
    simp [cmpOrd, h1, h2]

theorem sign_mem (v : Int) : Int.sign v = -1 ∨ Int.sign v = 0 ∨ Int.sign v = 1 := by
  rcases lt_trichotomy v 0 with h | h | h
  · exact Or.inl (Int.sign_eq_neg_one_of_neg h)
  · exact Or.inr (Or.inl (h ▸ Int.sign_zero))
  · exact Or.inr (Or.inr (Int.sign_eq_one_of_pos h))

/-- Net effect of push a, push b, cmp at a width-4-or-8 signed type:
the comparison result, cast to i32, replaces both operands. -/
theorem cmp_push_push (t : NumTy) (hpad : ¬ t.size < 4)
    (hslots : t.size = 4 * t.slots) (hsigned : t.signed = true)
    (hpos : 0 < t.size)
    (s : OperandStack) (a b : Int)
    (hlen : s.stack.length = STACK_SIZE)
    (hcap : (s.idx + 2 * t.slots) * 4 ≤ STACK_SIZE)
    (ha1 : -(2 : Int) ^ (8 * t.size - 1) ≤ a) (ha2 : a < (2 : Int) ^ (8 * t.size - 1))
    (hb1 : -(2 : Int) ^ (8 * t.size - 1) ≤ b) (hb2 : b < (2 : Int) ^ (8 * t.size - 1)) :
    OperandStack.cmp t (OperandStack.push t b (OperandStack.push t a s))
      = { stack :=
            writeBytes
              (writeBytes (writeBytes s.stack (s.idx * 4) (t.encode a))
                ((s.idx + t.slots) * 4) (t.encode b))
              (s.idx * 4) (NumTy.encode .i32 (cmpOrd a b)),
          idx := s.idx + 1 } := by
  have henca : (t.encode a).length = t.size := length_encode t a
  have hencb : (t.encode b).length = t.size := length_encode t b
  have hW1len : (writeBytes s.stack (s.idx * 4) (t.encode a)).length = STACK_SIZE := by
    rw [length_writeBytes, hlen]
    rw [henca, hlen]
    omega
  have hW2len : (writeBytes (writeBytes s.stack (s.idx * 4) (t.encode a))
      ((s.idx + t.slots) * 4) (t.encode b)).length = STACK_SIZE := by
    rw [length_writeBytes, hW1len]
    rw [hencb, hW1len]
    omega
  simp only [OperandStack.push, OperandStack.cmp, OperandStack.pop, hpad, if_false]
  have hidx1 : s.idx + t.slots + t.slots - t.slots = s.idx + t.slots := by omega
  have hidx2 : s.idx + t.slots - t.slots = s.idx := by omega
  simp only [hidx1, hidx2]
  have hreadb : readBytes
      (writeBytes (writeBytes s.stack (s.idx * 4) (t.encode a))
        ((s.idx + t.slots) * 4) (t.encode b)) ((s.idx + t.slots) * 4) t.size
      = t.encode b := by
    rw [← hencb]
    apply readBytes_writeBytes
    rw [hW1len]
    omega
  have hreada : readBytes
      (writeBytes (writeBytes s.stack (s.idx * 4) (t.encode a))
        ((s.idx + t.slots) * 4) (t.encode b)) (s.idx * 4) t.size
      = t.encode a := by
    rw [readBytes_writeBytes_above (by omega) (by rw [hW1len]; omega)]
    rw [← henca]
    apply readBytes_writeBytes
    rw [hlen]
    omega
  rw [hreadb, hreada, decode_encode_signed hsigned hpos hb1 hb2,
    decode_encode_signed hsigned hpos ha1 ha2]
  simp [OperandStack.push, NumTy.slots, NumTy.size]

/-- Claim C2: for every two same-width integers a and b on top of the
operand stack, with b pushed last, executing cmp (width 4 via opcode Cmp,
width 8 via CmpD; see Frame::step lines 73 to 74) pops b then a and
pushes the sign of a minus b, exactly -1, 0 or +1, as a 4-byte integer. -/
theorem spec2_C2 (t : NumTy) (ht : t = NumTy.i32 ∨ t = NumTy.i64)
    (s : OperandStack) (a b : Int)
    (hlen : s.stack.length = STACK_SIZE)
    (hcap : (s.idx + 2 * t.slots) * 4 ≤ STACK_SIZE)
    (ha1 : -(2 : Int) ^ (8 * t.size - 1) ≤ a) (ha2 : a < (2 : Int) ^ (8 * t.size - 1))
    (hb1 : -(2 : Int) ^ (8 * t.size - 1) ≤ b) (hb2 : b < (2 : Int) ^ (8 * t.size - 1)) :
    (OperandStack.cmp t (OperandStack.push t b (OperandStack.push t a s))).idx
        = s.idx + 1
    ∧ (OperandStack.cmp t (OperandStack.push t b (OperandStack.push t a s))).asSlice
        = s.asSlice ++ NumTy.encode .i32 (Int.sign (a - b))
    ∧ OperandStack.peek .i32
        (OperandStack.cmp t (OperandStack.push t b (OperandStack.push t a s)))
        = some (Int.sign (a - b))
    ∧ (Int.sign (a - b) = -1 ∨ Int.sign (a - b) = 0 ∨ Int.sign (a - b) = 1) := by
  have hpad : ¬ t.size < 4 := by rcases ht with rfl | rfl <;> simp [NumTy.size]
  have hslots : t.size = 4 * t.slots := by
    rcases ht with rfl | rfl <;> simp [NumTy.size, NumTy.slots]
  have hsigned : t.signed = true := by rcases ht with rfl | rfl <;> rfl
  have hpos : 0 < t.size := by omega
  have hr := cmp_push_push t hpad hslots hsigned hpos s a b hlen hcap ha1 ha2 hb1 hb2
  rw [hr]
  have henc4 : (NumTy.encode .i32 (cmpOrd a b)).length = 4 :=
    length_encode .i32 (cmpOrd a b)
  have hW1len : (writeBytes s.stack (s.idx * 4) (t.encode a)).length = STACK_SIZE := by
    rw [length_writeBytes (by rw [length_encode, hlen]; omega), hlen]
  have hW2len : (writeBytes (writeBytes s.stack (s.idx * 4) (t.encode a))
      ((s.idx + t.slots) * 4) (t.encode b)).length = STACK_SIZE := by
    rw [length_writeBytes (by rw [length_encode, hW1len]; omega), hW1len]
  have hslots1 : 1 ≤ t.slots := by omega
  refine ⟨rfl, ?_, ?_, sign_mem (a - b)⟩
  · show List.take ((s.idx + 1) * 4) _ = _
    have harith : (s.idx + 1) * 4 = s.idx * 4 + (NumTy.encode .i32 (cmpOrd a b)).length := by
      rw [henc4]
      ring
    rw [harith, take_writeBytes_full (by rw [hW2len]; omega)]
    rw [take_writeBytes_of_le (by omega) (by rw [hW1len]; omega)]
    rw [take_writeBytes_of_le (le_refl _) (by rw [hlen]; omega)]
    rw [cmpOrd_eq_sign]
    rfl
  · show OperandStack.peek .i32 _ = _
    have hs32 : NumTy.slots NumTy.i32 = 1 := rfl
    have hz32 : NumTy.size NumTy.i32 = 4 := rfl
    simp only [OperandStack.peek, hs32, hz32]
    rw [if_neg (by omega)]
    have hread0 : readBytes
        (writeBytes (writeBytes (writeBytes s.stack (s.idx * 4) (t.encode a))
          ((s.idx + t.slots) * 4) (t.encode b)) (s.idx * 4)
          (NumTy.encode .i32 (cmpOrd a b)))
        (s.idx * 4) (NumTy.encode .i32 (cmpOrd a b)).length
        = NumTy.encode .i32 (cmpOrd a b) :=
      readBytes_writeBytes (by rw [hW2len]; omega)
    have harith2 : (s.idx + 1 - 1) * 4 = s.idx * 4 := by omega
    rw [harith2]
    rw [henc4] at hread0
    rw [hread0]
    have hc := sign_mem (a - b)
    rw [@decode_encode_signed NumTy.i32 rfl (by norm_num [NumTy.size]) (cmpOrd a b)
      (by rw [cmpOrd_eq_sign]; rcases hc with h | h | h <;> rw [h] <;> norm_num [NumTy.size])
      (by rw [cmpOrd_eq_sign]; rcases hc with h | h | h <;> rw [h] <;> norm_num [NumTy.size])]
    rw [cmpOrd_eq_sign]

/-- Witness for C2 at width 4: comparing 5 (pushed first) with 10 on an
empty stack yields the sign of 5 - 10, that is -1, on top. -/
theorem spec2_C2_witness :
    (OperandStack.cmp .i32
      (OperandStack.push .i32 10 (OperandStack.push .i32 5 OperandStack.dflt))).idx = 1
    ∧ OperandStack.peek .i32
        (OperandStack.cmp .i32
          (OperandStack.push .i32 10 (OperandStack.push .i32 5 OperandStack.dflt)))
        = some (Int.sign (5 - 10)) := by
  have h := spec2_C2 .i32 (Or.inl rfl) OperandStack.dflt 5 10
    (List.length_replicate STACK_SIZE 0)
    (by norm_num [NumTy.slots, NumTy.size, OperandStack.dflt, STACK_SIZE])
    (by norm_num [NumTy.size]) (by norm_num [NumTy.size])
    (by norm_num [NumTy.size]) (by norm_num [NumTy.size])
  exact ⟨h.1, h.2.2.1⟩

/-! ### Cursor reads and step dispatch -/

theorem cursor_next_u8 (c : Cursor) (h : c.pos + 1 ≤ c.src.length) :
    Cursor.next .u8 c
      = .ok ((leToNat (readBytes c.src c.pos 1) : Int), { c with pos := c.pos + 1 }) := by
  unfold Cursor.next
  rw [if_neg (by omega), if_neg (by simp [NumTy.size]; omega)]
  simp [NumTy.decode, NumTy.signed, NumTy.size]

theorem cursor_next_u64 (c : Cursor) (h : c.pos + 8 ≤ c.src.length) :
    Cursor.next .u64 c
      = .ok ((leToNat (readBytes c.src c.pos 8) : Int), { c with pos := c.pos + 8 }) := by
  unfold Cursor.next
  rw [if_neg (by omega), if_neg (by simp [NumTy.size]; omega)]
  simp [NumTy.decode, NumTy.signed, NumTy.size]

/-- Step reduction at a `Call` opcode byte. -/
theorem step_at_call (fr : Frame) (h : Heap) (c : Cursor)
    (hop : decodeOp (leToNat (readBytes c.src c.pos 1)) = some .Call)
    (hlen : c.pos + 1 ≤ c.src.length) :
    fr.step h c
      = match fr.call { c with pos := c.pos + 1 } with
        | .error e => .error e
        | .ok (fr1, c2, res) => .ok (fr1, h, c2, .fr res) := by
  unfold Frame.step
  rw [cursor_next_u8 c hlen]
  simp only [Int.toNat_natCast, hop]

/-- Step reduction at a jump opcode byte: the dispatch calls `Frame::jmp`
with the opcode's condition set. -/
theorem step_at_jmp (fr : Frame) (h : Heap) (c : Cursor) (op : Bytecode)
    (conds : List Int)
    (hop : decodeOp (leToNat (readBytes c.src c.pos 1)) = some op)
    (hconds : jmpConditions op = some conds)
    (hlen : c.pos + 1 ≤ c.src.length) :
    fr.step h c
      = match fr.jmp { c with pos := c.pos + 1 } conds with
        | .error e => .error e
        | .ok (fr1, c2) => .ok (fr1, h, c2, .cont) := by
  cases op <;> simp only [jmpConditions, Option.some.injEq, reduceCtorEq] at hconds <;>
    subst hconds <;>
    (unfold Frame.step; rw [cursor_next_u8 c hlen]; simp only [Int.toNat_natCast, hop])

/-- Evaluation of `Frame::jmp` when the 8 operand bytes are in range:
read the absolute target; with no conditions jump without popping,
otherwise pop one i32 and jump iff it is one of the conditions. -/
theorem jmp_spec (fr : Frame) (c : Cursor) (conds : List Int)
    (hlen : c.pos + 8 ≤ c.src.length) :
    fr.jmp c conds =
      if conds.isEmpty then
        .ok (fr, { c with pos := leToNat (readBytes c.src c.pos 8) })
      else
        .ok ({ fr with opstack := (fr.opstack.pop .i32).2 },
          if conds.contains (fr.opstack.pop .i32).1
            then { c with pos := leToNat (readBytes c.src c.pos 8) }
            else { c with pos := c.pos + 8 }) := by
  rw [Frame.jmp]
  split
  case h_1 e heq =>
    rw [cursor_next_u64 c hlen] at heq
    cases heq
  case h_2 pos c1 heq =>
    rw [cursor_next_u64 c hlen] at heq
    injection heq with heq1
    injection heq1 with hpos hc1
    subst hpos
    subst hc1
    rcases hq : OperandStack.pop .i32 fr.opstack with ⟨hv, s1⟩
    by_cases he : conds.isEmpty
    · simp only [if_pos he]
      rfl
    · simp only [if_neg he]
      dsimp only
      by_cases hc : conds.contains hv
      · simp only [if_pos hc]
        rfl
      · simp only [if_neg hc]

/-- Step reduction at a conditional-jump opcode with a nonempty
condition set: pop one i32 and set the program counter to the target
iff the popped value is in the set. -/
theorem step_jmp_cond_spec (fr : Frame) (h : Heap) (c : Cursor)
    (op : Bytecode) (conds : List Int)
    (hop : decodeOp (leToNat (readBytes c.src c.pos 1)) = some op)
    (hconds : jmpConditions op = some conds)
    (hne : conds.isEmpty = false)
    (hlen : c.pos + 9 ≤ c.src.length) :
    fr.step h c = .ok ({ fr with opstack := (fr.opstack.pop .i32).2 }, h,
      (if conds.contains (fr.opstack.pop .i32).1
        then { c with pos := leToNat (readBytes c.src (c.pos + 1) 8) }
        else { c with pos := c.pos + 9 }), .cont) := by
  rw [step_at_jmp fr h c op conds hop hconds (by omega),
      jmp_spec fr { c with pos := c.pos + 1 } conds (by simp; omega), hne]
  have harith : c.pos + 1 + 8 = c.pos + 9 := by omega
  by_cases hc : conds.contains (fr.opstack.pop .i32).1
  · rw [if_pos hc]
    rfl
  · rw [if_neg hc]
    show Except.ok (_, h, ({ src := c.src, pos := c.pos + 1 + 8, base := c.base } : Cursor),
      StepEvent.cont) = _
    rw [harith]

/-- Claim C3: executing a conditional jump (jmp.eq, jmp.ne, jmp.lt,
jmp.gt, jmp.le, jmp.ge) pops exactly one 4-byte comparison result and
sets the program counter to the 8-byte absolute target iff that value
lies in the designated subset of -1, 0, +1 given by jmpConditions;
unconditional jmp sets the program counter to the target and pops
nothing. -/
theorem spec2_C3 (fr : Frame) (h : Heap) (c : Cursor) (op : Bytecode)
    (conds : List Int)
    (hop : decodeOp (leToNat (readBytes c.src c.pos 1)) = some op)
    (hconds : jmpConditions op = some conds)
    (hlen : c.pos + 9 ≤ c.src.length) :
    (op = .Jmp →
      fr.step h c = .ok (fr, h,
        { c with pos := leToNat (readBytes c.src (c.pos + 1) 8) }, .cont))
    ∧ (op ≠ .Jmp →
      fr.step h c = .ok ({ fr with opstack := (fr.opstack.pop .i32).2 }, h,
        (if conds.contains (fr.opstack.pop .i32).1
          then { c with pos := leToNat (readBytes c.src (c.pos + 1) 8) }
          else { c with pos := c.pos + 9 }), .cont))
    ∧ (∀ x ∈ conds, x = -1 ∨ x = 0 ∨ x = 1) := by
  refine ⟨?_, ?_, ?_⟩
  · intro hJ
    subst hJ
    simp only [jmpConditions, Option.some.injEq] at hconds
    subst hconds
    rw [step_at_jmp fr h c .Jmp [] hop rfl (by omega),
        jmp_spec fr { c with pos := c.pos + 1 } [] (by simp; omega)]
    rfl
  · intro hne
    have hne2 : conds.isEmpty = false := by
      cases op <;> simp only [jmpConditions, Option.some.injEq, reduceCtorEq] at hconds
      case Jmp => exact absurd rfl hne
      all_goals subst hconds
      all_goals rfl
    exact step_jmp_cond_spec fr h c op conds hop hconds hne2 hlen
  · cases op <;> simp only [jmpConditions, Option.some.injEq, reduceCtorEq] at hconds <;>
      subst hconds <;> decide

/-- Claim C1: for every frame executing a call instruction, afterwards
the callee frame's locals contain, starting at slot index 0, a
byte-for-byte copy of the caller's operand-stack contents as they were
immediately before the call; the caller's operand stack is empty; the
callee starts with a fresh empty operand stack; and the callee's
recorded ret is the byte position immediately after the call
instruction's 8-byte operand. -/
theorem spec2_C1 (fr : Frame) (h : Heap) (c : Cursor)
    (hop : decodeOp (leToNat (readBytes c.src c.pos 1)) = some .Call)
    (hlen : c.pos + 9 ≤ c.src.length)
    (hidx : fr.opstack.idx ≤ 128)
    (hsl : fr.opstack.stack.length = STACK_SIZE) :
    ∃ callee : Frame,
      fr.step h c = .ok ({ fr with opstack := fr.opstack.clear }, h,
        { c with pos := c.pos + 9 }, .fr (.Call callee))
      ∧ readBytes callee.locals.locals 0 (fr.opstack.idx * 4) = fr.opstack.asSlice
      ∧ ({ fr with opstack := fr.opstack.clear }).opstack.asSlice = []
      ∧ callee.opstack = OperandStack.dflt
      ∧ callee.ret = c.pos + 9
      ∧ callee.entry = leToNat (readBytes c.src (c.pos + 1) 8) := by
  refine ⟨{ opstack := OperandStack.dflt,
            locals := Locals.dflt.copyFromSlice fr.opstack.asSlice,
            entry := leToNat (readBytes c.src (c.pos + 1) 8),
            ret := c.pos + 9 }, ?_, ?_, ?_, rfl, rfl, rfl⟩
  · rw [step_at_call fr h c hop (by omega)]
    rw [Frame.call]
    rw [cursor_next_u64 { c with pos := c.pos + 1 } (by simp; omega)]
    rfl
  · have hslice : fr.opstack.asSlice.length = fr.opstack.idx * 4 := by
      unfold OperandStack.asSlice
      simp only [List.length_take, hsl]
      have : fr.opstack.idx * 4 ≤ STACK_SIZE := by
        unfold STACK_SIZE
        omega
      omega
    show readBytes (Locals.dflt.copyFromSlice fr.opstack.asSlice).locals 0
        (fr.opstack.idx * 4) = fr.opstack.asSlice
    rw [← hslice]
    unfold Locals.copyFromSlice Locals.dflt
    exact readBytes_writeBytes (by simp)
  · rfl

set_option maxRecDepth 40000 in
/-- Witness for C1: calling with the value 7 on the caller stack; the
callee receives byte-for-byte the caller stack as locals and ret 9. -/
theorem spec2_C1_witness :
    ∃ callee : Frame,
      Frame.step frC1 Heap.dflt cC1 = .ok ({ frC1 with opstack := frC1.opstack.clear },
        Heap.dflt, { cC1 with pos := cC1.pos + 9 }, .fr (.Call callee))
      ∧ readBytes callee.locals.locals 0 (frC1.opstack.idx * 4) = frC1.opstack.asSlice
      ∧ ({ frC1 with opstack := frC1.opstack.clear }).opstack.asSlice = []
      ∧ callee.opstack = OperandStack.dflt
      ∧ callee.ret = cC1.pos + 9
      ∧ callee.entry = leToNat (readBytes cC1.src (cC1.pos + 1) 8) :=
  spec2_C1 frC1 Heap.dflt cC1 (by decide) (by decide) (by decide) (by decide)

set_option maxRecDepth 40000 in
/-- Witness for C3: a jmp.lt whose popped comparison result is -1 takes
the branch to the 8-byte absolute target. -/
theorem spec2_C3_witness :
    Frame.step frC3 Heap.dflt cC3 = .ok ({ frC3 with opstack := (frC3.opstack.pop .i32).2 },
      Heap.dflt,
      (if List.contains [(-1 : Int)] ((frC3.opstack.pop .i32).1)
        then { cC3 with pos := leToNat (readBytes cC3.src (cC3.pos + 1) 8) }
        else { cC3 with pos := cC3.pos + 9 }), .cont) :=
  (spec2_C3 frC3 Heap.dflt cC3 .JmpLt [-1] (by decide) rfl (by decide)).2.1 (by decide)

/-! ### Heap allocation -/

/-- The free-list scan returns the first entry whose allocation exists
and has capacity at least `size`; every earlier resolvable entry is too
small. -/
theorem findFree_spec (alls : List Allocation) (size : Nat) :
    ∀ (l : List Nat) (i0 j id : Nat),
      Heap.findFree alls size l i0 = some (j, id) →
      ∃ k, j = i0 + k ∧ l.get? k = some id
        ∧ (∃ alc, alls.get? id = some alc ∧ size ≤ alc.mem.length)
        ∧ ∀ m, m < k → ∀ id2, l.get? m = some id2 →
            ∀ alc2, alls.get? id2 = some alc2 → alc2.mem.length < size := by
  intro l
  induction l with
  | nil => intro i0 j id hf; cases hf
  | cons id0 rest ih =>
      intro i0 j id hf
      unfold Heap.findFree at hf
      rcases hg : alls.get? id0 with _ | alc0
      · rw [hg] at hf
        obtain ⟨k, hk, hget, hfit, hprior⟩ := ih (i0 + 1) j id hf
        refine ⟨k + 1, by omega, by simpa using hget, hfit, ?_⟩
        intro m hm id2 hget2 alc2 hget3
        cases m with
        | zero =>
            simp only [List.get?_cons_zero, Option.some.injEq] at hget2
            subst hget2
            rw [hg] at hget3
            cases hget3
        | succ m =>
            simp only [List.get?_cons_succ] at hget2
            exact hprior m (by omega) id2 hget2 alc2 hget3
      · rw [hg] at hf
        have hf2 : (if size ≤ alc0.mem.length then some (i0, id0)
            else Heap.findFree alls size rest (i0 + 1)) = some (j, id) := hf
        by_cases hfit0 : size ≤ alc0.mem.length
        · rw [if_pos hfit0] at hf2
          injection hf2 with hf1
          injection hf1 with hj hid
          subst hj
          subst hid
          exact ⟨0, by omega, rfl, ⟨alc0, hg, hfit0⟩, fun m hm => by omega⟩
        · rw [if_neg hfit0] at hf2
          obtain ⟨k, hk, hget, hfit, hprior⟩ := ih (i0 + 1) j id hf2
          refine ⟨k + 1, by omega, by simpa using hget, hfit, ?_⟩
          intro m hm id2 hget2 alc2 hget3
          cases m with
          | zero =>
              simp only [List.get?_cons_zero, Option.some.injEq] at hget2
              subst hget2
              rw [hg] at hget3
              injection hget3 with he
              subst he
              omega
          | succ m =>
              simp only [List.get?_cons_succ] at hget2
              exact hprior m (by omega) id2 hget2 alc2 hget3

/-- Claim C10: Heap::alloc zero-initialises only freshly created
allocations; when alloc(size) satisfies a request by reusing a freed
block (the first free-list entry whose capacity is at least size), the
returned block keeps exactly the bytes it held before it was freed
(its mem field is unchanged; only the free flag is cleared and the
free-list entry removed). -/
theorem spec2_C10 :
    (∀ (h : Heap) (size : Nat),
       Heap.findFree h.allocations size h.freeList 0 = none →
       h.alloc size = (h.allocations.length + 1,
         { h with allocations :=
             h.allocations ++ [Allocation.new size (h.allocations.length + 1)] })
       ∧ (Allocation.new size (h.allocations.length + 1)).mem = List.replicate size 0)
    ∧ (∀ (h : Heap) (size i id : Nat) (alc : Allocation),
       Heap.findFree h.allocations size h.freeList 0 = some (i, id) →
       h.allocations.get? id = some alc →
       h.alloc size = (alc.addr,
         { allocations := h.allocations.set id { alc with free := false },
           freeList := h.freeList.eraseIdx i })
       ∧ ({ alc with free := false }).mem = alc.mem
       ∧ h.freeList.get? i = some id ∧ size ≤ alc.mem.length
       ∧ ∀ m, m < i → ∀ id2, h.freeList.get? m = some id2 →
           ∀ alc2, h.allocations.get? id2 = some alc2 →
             alc2.mem.length < size) := by
  constructor
  · intro h size hnone
    constructor
    · unfold Heap.alloc
      rw [hnone]
    · rfl
  · intro h size i id alc hfind hget
    obtain ⟨k, hk, hgetk, ⟨alc2, hget2, hfit2⟩, hprior⟩ :=
      findFree_spec h.allocations size h.freeList 0 i id hfind
    have hk0 : k = i := by omega
    subst hk0
    rw [hget] at hget2
    injection hget2 with he
    subst he
    refine ⟨?_, rfl, hgetk, hfit2, hprior⟩
    unfold Heap.alloc
    rw [hfind]
    show (match h.allocations.get? id with
          | some alc =>
              (alc.addr,
               ({ allocations := h.allocations.set id { alc with free := false },
                  freeList := h.freeList.eraseIdx k } : Heap))
          | none => ((0 : Nat), h)) = _
    rw [hget]

/-- Witness for C10: reusing the freed 4-byte block keeps its bytes
9, 8, 7, 6 (not zeroed); a fresh allocation on the empty heap is
zero-initialised. -/
theorem spec2_C10_witness :
    Heap.alloc { allocations := [{ free := true, mem := [9, 8, 7, 6], addr := 1 }],
                 freeList := [0] } 2
      = (1, { allocations := [{ free := false, mem := [9, 8, 7, 6], addr := 1 }],
              freeList := [] })
    ∧ Heap.alloc Heap.dflt 3 = (1, { allocations := [Allocation.new 3 1], freeList := [] }) := by
  constructor
  · have := (spec2_C10.2
      { allocations := [{ free := true, mem := [9, 8, 7, 6], addr := 1 }], freeList := [0] }
      2 0 0 { free := true, mem := [9, 8, 7, 6], addr := 1 } (by decide) (by decide)).1
    exact this.trans (by decide)
  · have := (spec2_C10.1 Heap.dflt 3 (by decide)).1
    exact this.trans (by decide)

/-! ### Serialisation round trip -/

theorem readN_exact (xs rest : List Nat) : readN (xs ++ rest) xs.length = .ok (xs, rest) := by
  unfold readN
  rw [if_pos (by simp), List.take_left, List.drop_left]

theorem readN_exact_len {xs : List Nat} (rest : List Nat) {n : Nat} (h : xs.length = n) :
    readN (xs ++ rest) n = .ok (xs, rest) := by
  subst h
  exact readN_exact xs rest

theorem readOffsets_spec (offs : List Nat) (hb : ∀ x ∈ offs, x < 2 ^ 64) (rest : List Nat) :
    readOffsets offs.length (offs.flatMap (fun off => natToLe 8 off) ++ rest)
      = .ok (offs, rest) := by
  induction offs with
  | nil => rfl
  | cons x xs ih =>
      show readOffsets (xs.length + 1) _ = _
      unfold readOffsets
      rw [List.flatMap_cons, List.append_assoc,
        readN_exact_len (xs.flatMap (fun off => natToLe 8 off) ++ rest) (length_natToLe 8 x)]
      show (match readOffsets xs.length ((xs.flatMap fun off => natToLe 8 off) ++ rest) with
            | Except.error e => Except.error e
            | Except.ok (offs, r2) =>
                Except.ok (leToNat (natToLe 8 x) :: offs, r2)) = _
      rw [ih (fun y hy => hb y (List.mem_cons_of_mem x hy))]
      have hx : leToNat (natToLe 8 x) = x := by
        apply leToNat_natToLe_of_lt
        have := hb x (List.mem_cons_self x xs)
        have h2 : (256 : Nat) ^ 8 = 2 ^ 64 := by norm_num
        omega
      rw [hx]

theorem readNames_spec (names : List (List Nat)) (hb : ∀ nm ∈ names, nm.length < 65536)
    (rest : List Nat) :
    readNames names.length
        (names.flatMap (fun nm => natToLe 2 nm.length ++ nm) ++ rest)
      = .ok (names, rest) := by
  induction names with
  | nil => rfl
  | cons nm nms ih =>
      show readNames (nms.length + 1) _ = _
      unfold readNames
      rw [List.flatMap_cons, List.append_assoc, List.append_assoc,
        readN_exact_len _ (length_natToLe 2 nm.length)]
      have hlen : leToNat (natToLe 2 nm.length) = nm.length := by
        apply leToNat_natToLe_of_lt
        have := hb nm (List.mem_cons_self nm nms)
        omega
      show (match readN (nm ++ ((nms.flatMap fun nm => natToLe 2 nm.length ++ nm) ++ rest))
              (leToNat (natToLe 2 nm.length)) with
            | Except.error e => Except.error e
            | Except.ok (nm2, r2) =>
                match readNames nms.length r2 with
                | Except.error e => Except.error e
                | Except.ok (names, r3) => Except.ok (nm2 :: names, r3)) = _
      rw [hlen, readN_exact nm _]
      show (match readNames nms.length
              ((nms.flatMap fun nm => natToLe 2 nm.length ++ nm) ++ rest) with
            | Except.error e => Except.error e
            | Except.ok (names, r3) => Except.ok (nm :: names, r3)) = _
      rw [ih (fun y hy => hb y (List.mem_cons_of_mem nm hy))]

theorem ebind_ok {A B : Type} (a : A) (f : A → Except String B) :
    ebind (.ok a) f = f a := rfl

theorem readOffsets_spec_len (offs : List Nat) (hb : ∀ x ∈ offs, x < 2 ^ 64)
    (rest : List Nat) {n : Nat} (hc : n = offs.length) :
    readOffsets n (offs.flatMap (fun off => natToLe 8 off) ++ rest) = .ok (offs, rest) := by
  subst hc
  exact readOffsets_spec offs hb rest

theorem readNames_spec_len (names : List (List Nat))
    (hb : ∀ nm ∈ names, nm.length < 65536) (rest : List Nat) {n : Nat}
    (hc : n = names.length) :
    readNames n (names.flatMap (fun nm => natToLe 2 nm.length ++ nm) ++ rest)
      = .ok (names, rest) := by
  subst hc
  exact readNames_spec names hb rest

theorem zip_fst_snd {α β : Type} (l : List (α × β)) :
    (l.map Prod.fst).zip (l.map Prod.snd) = l := by
  induction l with
  | nil => rfl
  | cons p ps ih => simp [ih]

/-- Counterexample to claim C4 as stated: the image whose data section
is 65536 bytes long cannot be serialised at all; the length does not
fit the u16 length field and serialise panics
(`u16::try_from(self.data.len()).unwrap()`), so the round trip fails
for this image. -/
theorem spec2_C4_counterexample : Output.serialise bigImage = none := by
  unfold Output.serialise bigImage
  rw [if_neg]
  intro hcon
  have h1 := hcon.1
  simp only [List.length_replicate] at h1
  omega

/-- Claim C4 (amended): deserialising the serialisation yields the
image back for every image within the format's length fields: data,
text, label count and every label name at most 65535 bytes or entries
(the u16 fields), entry and label offsets u64 values. -/
theorem spec2_C4 (o : Output)
    (he : o.entry < 2 ^ 64)
    (hd : o.data.length < 65536) (ht : o.text.length < 65536)
    (hl : o.labels.length < 65536)
    (ho : ∀ p ∈ o.labels, Prod.fst p < 2 ^ 64)
    (hn : ∀ p ∈ o.labels, (Prod.snd p).length < 65536) :
    ∃ bs, o.serialise = some bs ∧ Output.deserialise bs = .ok o := by
  have h2exp : (65536 : Nat) = 256 ^ 2 := by norm_num
  have h8exp : (2 : Nat) ^ 64 = 256 ^ 8 := by norm_num
  have hentry : leToNat (natToLe 8 o.entry) = o.entry :=
    leToNat_natToLe_of_lt (by omega)
  have hdl : leToNat (natToLe 2 o.data.length) = o.data.length :=
    leToNat_natToLe_of_lt (by omega)
  have htl : leToNat (natToLe 2 o.text.length) = o.text.length :=
    leToNat_natToLe_of_lt (by omega)
  have hcnt : leToNat (natToLe 2 o.labels.length) = o.labels.length :=
    leToNat_natToLe_of_lt (by omega)
  have hoffs : ∀ x ∈ o.labels.map Prod.fst, x < 2 ^ 64 := by
    intro x hx
    obtain ⟨p, hp, rfl⟩ := List.mem_map.mp hx
    exact ho p hp
  have hnms : ∀ nm ∈ o.labels.map Prod.snd, nm.length < 65536 := by
    intro nm hx
    obtain ⟨p, hp, rfl⟩ := List.mem_map.mp hx
    exact hn p hp
  refine ⟨_, by unfold Output.serialise; rw [if_pos ⟨hd, ht, hl, hn⟩], ?_⟩
  unfold Output.deserialise
  rw [readN_exact_len _ (length_natToLe 8 o.entry), ebind_ok]
  simp only []
  rw [readN_exact_len _ (length_natToLe 2 o.data.length), ebind_ok]
  simp only []
  rw [hdl, readN_exact o.data _, ebind_ok]
  simp only []
  rw [readN_exact_len _ (length_natToLe 2 o.text.length), ebind_ok]
  simp only []
  rw [htl, readN_exact o.text _, ebind_ok]
  simp only []
  rw [readN_exact_len _ (length_natToLe 2 o.labels.length), ebind_ok]
  simp only []
  rw [readOffsets_spec_len (o.labels.map Prod.fst) hoffs _
      (by rw [hcnt, List.length_map]), ebind_ok]
  simp only []
  rw [readN_exact_len _ (length_natToLe 2 o.labels.length), ebind_ok]
  simp only []
  rw [← List.append_nil ((o.labels.map Prod.snd).flatMap fun nm => natToLe 2 nm.length ++ nm)]
  rw [readNames_spec_len (o.labels.map Prod.snd) hnms []
      (by rw [hcnt, List.length_map]), ebind_ok]
  simp only []
  rw [if_pos (by simp), zip_fst_snd, hentry]

/-- Witness for the amended C4 at a small image with a label, data and
text. -/
theorem spec2_C4_witness :
    ∃ bs, Output.serialise smallImage = some bs
      ∧ Output.deserialise bs = .ok smallImage :=
  spec2_C4 smallImage (by decide) (by decide) (by decide) (by decide)
    (by decide) (by decide)

/-- C5: code bug in the disassembler half of the round-trip: `fmt_text`
(like the older `StackOut` Display) prints the mnemonic "push" for the
`PushB` opcode, the very word the assembler maps to the 4-byte-operand
`Push` opcode; reassembling the printed text of a `push.b` instruction
therefore yields different bytes than the original image, so the
assemble/disassemble round-trip fails on width-suffixed pushes. -/
theorem spec2_C5 :
    fmtTextWord .PushB = "push" ∧
    fmtTextWord .Push = "push" ∧
    mnemonicSpec "push" = some (.Push, .imm .i32) ∧
    assembleInstruction "push.b" [.val (.num "5")] ⟨[], [], []⟩
      = some ([], ⟨[2, 5], [], []⟩) ∧
    assembleInstruction "push" [.val (.num "5")] ⟨[], [], []⟩
      = some ([], ⟨[0, 5, 0, 0, 0], [], []⟩) ∧
    ([2, 5] : List Nat) ≠ [0, 5, 0, 0, 0] := by
  decide

/-- C7 counterexample: the source ".entry main  main: ret  main: ret"
declares the text label main twice, yet assembly succeeds (the second
declaration silently rebinds main to offset 9, where the entry header
then points). -/
theorem spec2_C7_counterexample :
    asmAssemble c7toks = some (natToLe 8 9 ++ [36, 36]) := by
  decide

/-- C9: code bug: after setting a breakpoint at a valid position,
the delete command removes the position from the position-to-line map
and leaves the breakpoint set untouched — the opposite of the claim. -/
theorem spec2_C9 :
    Debugger.setBreakpoint ⟨[], [(5, 0)]⟩ 5 = some ⟨[5], [(5, 0)]⟩ ∧
    (Debugger.deleteBreakpoint ⟨[5], [(5, 0)]⟩ 5).breakpoints = [5] ∧
    (Debugger.deleteBreakpoint ⟨[5], [(5, 0)]⟩ 5).lines = [] := by
  decide

set_option maxRecDepth 40000 in
/-- C8: code bug: on the image [entry 8][push 7][fail], the run loop
returns the fatal FAILED error but the frame stack ends empty — the
faulting frame (the one holding the pushed 7) was popped at the top of
the loop and is dropped by the `Err("FAILED")?` arm, so it is not
available for inspection. -/
theorem spec2_C8 :
    Except.map (fun st => ((iInterpRun 10 st).1.frames, (iInterpRun 10 st).2))
        (iInterpNew progC8)
      = .ok ([], .error "FAILED") := by
  rfl

theorem wf_extend {st : AsmSt} (bs : List Nat) (l : List (String × Nat))
    (h : WfAsm st) : WfAsm ⟨st.program ++ bs, l, st.unresolved⟩ := by
  obtain ⟨h1, h2⟩ := h
  refine ⟨fun p hp => ?_, h2⟩
  have := h1 p hp
  simp only [List.length_append]
  omega

theorem wf_extend_label {st : AsmSt} (label : String) (h : WfAsm st) :
    WfAsm ⟨st.program ++ List.replicate 8 0, st.labels,
      st.unresolved ++ [(st.program.length, label)]⟩ := by
  obtain ⟨h1, h2⟩ := h
  constructor
  · intro p hp
    simp only [List.mem_append, List.mem_singleton] at hp
    rcases hp with hp | hp
    · have := h1 p hp
      simp only [List.length_append, List.length_replicate]
      omega
    · subst hp
      simp only [List.length_append, List.length_replicate]
      omega
  · rw [List.pairwise_append]
    refine ⟨h2, List.pairwise_singleton _ _, fun a ha b hb => ?_⟩
    simp only [List.mem_singleton] at hb
    subst hb
    exact h1 a ha

theorem wf_assembleOperator {st : AsmSt} (code : IBytecode) (h : WfAsm st) :
    WfAsm (assembleOperator st code) :=
  wf_extend [code.code] st.labels h

theorem wf_assembleLabel {toks rest : List AToken} {st st2 : AsmSt}
    (h : assembleLabel toks st = some (rest, st2)) (hw : WfAsm st) : WfAsm st2 := by
  unfold assembleLabel at h
  split at h
  · injection h with h
    injection h with h3 h4
    subst h4
    exact wf_extend_label _ hw
  · exact absurd h (by simp)

theorem wf_assembleOperatorWithOperand {t : NumTy} {code : IBytecode}
    {toks rest : List AToken} {st st2 : AsmSt}
    (h : assembleOperatorWithOperand t code toks st = some (rest, st2))
    (hw : WfAsm st) : WfAsm st2 := by
  have hw1 := wf_assembleOperator code hw
  unfold assembleOperatorWithOperand at h
  dsimp only at h
  split at h
  · split at h
    · injection h with h
      injection h with h3 h4
      subst h4
      exact wf_extend _ _ hw1
    · exact absurd h (by simp)
  · split at h
    · exact wf_assembleLabel h hw1
    · exact absurd h (by simp)
  · exact absurd h (by simp)

theorem wf_assembleOperatorWithLabel {code : IBytecode}
    {toks rest : List AToken} {st st2 : AsmSt}
    (h : assembleOperatorWithLabel code toks st = some (rest, st2))
    (hw : WfAsm st) : WfAsm st2 :=
  wf_assembleLabel h (wf_assembleOperator code hw)

theorem wf_assembleInstruction {w : String} {toks rest : List AToken} {st st2 : AsmSt}
    (h : assembleInstruction w toks st = some (rest, st2))
    (hw : WfAsm st) : WfAsm st2 := by
  unfold assembleInstruction at h
  split at h
  · exact absurd h (by simp)
  · injection h with h
    injection h with h3 h4
    subst h4
    exact wf_assembleOperator _ hw
  · exact wf_assembleOperatorWithOperand h hw
  · exact wf_assembleOperatorWithLabel h hw

theorem wf_assembleData {toks rest : List AToken} {st st2 : AsmSt}
    (h : assembleData toks st = some (rest, st2)) (hw : WfAsm st) : WfAsm st2 := by
  unfold assembleData at h
  split at h
  · split at h
    · exact absurd h (by simp)
    · dsimp only at h
      split at h
      · exact absurd h (by simp)
      · split at h
        · split at h
          · injection h with h
            injection h with h3 h4
            subst h4
            exact wf_extend _ _ hw
          · exact absurd h (by simp)
        · injection h with h
          injection h with h3 h4
          subst h4
          exact wf_extend _ _ hw
  · exact absurd h (by simp)

theorem wf_pass1Loop : ∀ (fuel : Nat) (toks : List AToken) (st st2 : AsmSt),
    pass1Loop fuel toks st = some st2 → WfAsm st → WfAsm st2 := by
  intro fuel
  induction fuel with
  | zero => intro toks st st2 h _; exact absurd h (by simp [pass1Loop])
  | succ fuel ih =>
      intro toks st st2 h hw
      match toks with
      | [] =>
          simp only [pass1Loop] at h
          injection h with h
          subst h
          exact hw
      | .word w :: rest =>
          simp only [pass1Loop] at h
          split at h
          · exact ih _ _ _ h hw
          · split at h
            · exact ih _ _ _ h (wf_assembleInstruction (by assumption) hw)
            · exact absurd h (by simp)
      | .dot :: rest =>
          simp only [pass1Loop] at h
          split at h
          · split at h
            · exact ih _ _ _ h (wf_assembleData (by assumption) hw)
            · exact absurd h (by simp)
          · exact absurd h (by simp)
      | .eof :: rest =>
          simp only [pass1Loop] at h
          injection h with h
          subst h
          exact hw
      | .kw k :: rest => exact absurd h (by simp [pass1Loop])
      | .val v :: rest => exact absurd h (by simp [pass1Loop])
      | .colon :: rest => exact absurd h (by simp [pass1Loop])

theorem wf_assemblePass1 {toks : List AToken} {st : AsmSt}
    (h : assemblePass1 toks = some st) : WfAsm st := by
  unfold assemblePass1 at h
  split at h
  · split at h
    · refine wf_pass1Loop _ _ _ _ h (wf_assembleLabel (by assumption) ?_)
      exact ⟨fun p hp => absurd hp (List.not_mem_nil p), List.Pairwise.nil⟩
    · exact absurd h (by simp)
  · exact absurd h (by simp)

theorem backpatch_unbound (labels : List (String × Nat)) :
    ∀ (u : List (Nat × String)) (prog : List Nat) (p : Nat × String),
    p ∈ u → lookupAssoc labels p.2 = none → backpatch u labels prog = none := by
  intro u
  induction u with
  | nil => intro prog p hp _; exact absurd hp (List.not_mem_nil p)
  | cons hd tl ih =>
      obtain ⟨i, name⟩ := hd
      intro prog p hp hnone
      rcases List.mem_cons.mp hp with hp | hp
      · subst hp
        simp only [backpatch, hnone]
      · simp only [backpatch]
        cases hcase : lookupAssoc labels name with
        | none => rfl
        | some off => exact ih _ p hp hnone

theorem backpatch_ok (labels : List (String × Nat)) :
    ∀ (u : List (Nat × String)) (prog : List Nat),
    (∀ p ∈ u, p.1 + 8 ≤ prog.length) →
    List.Pairwise (fun a b => a.1 + 8 ≤ b.1) u →
    (∀ p ∈ u, (lookupAssoc labels p.2).isSome) →
    ∃ prog2, backpatch u labels prog = some prog2 ∧
      prog2.length = prog.length ∧
      (∀ k m, (∀ q ∈ u, k + m ≤ q.1) → readBytes prog2 k m = readBytes prog k m) ∧
      (∀ p ∈ u, ∀ off, lookupAssoc labels p.2 = some off →
        readBytes prog2 p.1 8 = natToLe 8 off) := by
  intro u
  induction u with
  | nil =>
      intro prog _ _ _
      exact ⟨prog, rfl, rfl, fun _ _ _ => rfl, fun p hp => absurd hp (List.not_mem_nil p)⟩
  | cons hd tl ih =>
      obtain ⟨i, name⟩ := hd
      intro prog hfit hpw hbound
      obtain ⟨off0, hoff0⟩ :=
        Option.isSome_iff_exists.mp (hbound (i, name) (List.mem_cons_self _ _))
      have hhd : i + 8 ≤ prog.length := hfit (i, name) (List.mem_cons_self _ _)
      have hlen1 : (writeBytes prog i (natToLe 8 off0)).length = prog.length := by
        apply length_writeBytes
        rw [length_natToLe]
        exact hhd
      have hpwc := List.pairwise_cons.mp hpw
      obtain ⟨prog2, hbp, hlen2, hpres, hread⟩ :=
        ih (writeBytes prog i (natToLe 8 off0))
          (fun p hp => by rw [hlen1]; exact hfit p (List.mem_cons_of_mem _ hp))
          hpwc.2
          (fun p hp => hbound p (List.mem_cons_of_mem _ hp))
      refine ⟨prog2, ?_, by rw [hlen2, hlen1], ?_, ?_⟩
      · simp only [backpatch, hoff0]
        exact hbp
      · intro k m hkm
        rw [hpres k m (fun q hq => hkm q (List.mem_cons_of_mem _ hq))]
        apply readBytes_writeBytes_above
        · exact hkm (i, name) (List.mem_cons_self _ _)
        · omega
      · intro p hp off hoff
        rcases List.mem_cons.mp hp with hp | hp
        · subst hp
          rw [hoff0] at hoff
          injection hoff with hoff
          subst hoff
          have hstep : readBytes prog2 i 8 = readBytes (writeBytes prog i (natToLe 8 off0)) i 8 :=
            hpres i 8 (fun q hq => hpwc.1 q hq)
          rw [hstep]
          have := @readBytes_writeBytes prog (natToLe 8 off0) i (by omega)
          rwa [length_natToLe] at this
        · exact hread p hp off hoff

set_option maxRecDepth 40000 in
/-- C6 counterexample: for ".entry main  main: ret  .data x .word"
the data directive follows the code, so the interleaved stream is
[8-byte header][ret][4 data bytes]; the assembler recorded main at its
raw stream offset 8 and pass 2 writes 8 into the entry header, while
the spec's sectioned formula gives absolute(main) = 8 + 0 + 4 = 12 for
a text label with data_length 4. -/
theorem spec2_C6_counterexample :
    asmAssemble c6toks = some (natToLe 8 8 ++ [36, 0, 0, 0, 0]) ∧
    specAbsolute true 0 4 = 12 ∧
    readBytes (natToLe 8 8 ++ [36, 0, 0, 0, 0]) 0 8 ≠ natToLe 8 (specAbsolute true 0 4) := by
  refine ⟨by decide, by decide, by decide⟩

/-- C6 (amended): pass 2 writes, at each recorded unresolved offset,
the 8-byte little-endian raw offset at which the label was declared in
the single emitted byte stream (8-byte entry header included, data and
text interleaved in source order) — not the spec's per-section formula;
the entry header is patched by the same rule (it is the unresolved
entry at offset 0); a label that resolves to nothing is fatal. -/
theorem spec2_C6 {toks : List AToken} {st : AsmSt}
    (h1 : assemblePass1 toks = some st) :
    (∀ p ∈ st.unresolved, lookupAssoc st.labels p.2 = none →
        asmAssemble toks = none) ∧
    ((∀ p ∈ st.unresolved, (lookupAssoc st.labels p.2).isSome) →
      ∃ prog, asmAssemble toks = some prog ∧ prog.length = st.program.length ∧
        ∀ p ∈ st.unresolved, ∀ off, lookupAssoc st.labels p.2 = some off →
          readBytes prog p.1 8 = natToLe 8 off) := by
  have hwf := wf_assemblePass1 h1
  constructor
  · intro p hp hnone
    unfold asmAssemble
    rw [h1]
    exact backpatch_unbound st.labels st.unresolved st.program p hp hnone
  · intro hb
    obtain ⟨prog2, hbp, hlen, _, hread⟩ :=
      backpatch_ok st.labels st.unresolved st.program hwf.1 hwf.2 hb
    refine ⟨prog2, ?_, hlen, hread⟩
    unfold asmAssemble
    rw [h1]
    exact hbp

set_option maxRecDepth 40000 in
theorem spec2_C6_witness :
    ∃ prog, asmAssemble c6wtoks = some prog ∧ readBytes prog 0 8 = natToLe 8 8 := by
  obtain ⟨prog, hasm, -, hread⟩ :=
    (@spec2_C6 c6wtoks ⟨List.replicate 8 0 ++ [36], [("main", 8)], [(0, "main")]⟩
      (by decide)).2 (by decide)
  exact ⟨prog, hasm, hread (0, "main") (by decide) 8 (by decide)⟩

theorem lookupAssoc_map_overwrite (k : String) (v : Nat) :
    ∀ (l : List (String × Nat)), l.any (fun p => p.1 = k) = true →
    lookupAssoc (l.map (fun p => if p.1 = k then (k, v) else p)) k = some v := by
  intro l
  induction l with
  | nil => intro h; simp at h
  | cons hd tl ih =>
      intro h
      by_cases hk : hd.1 = k
      · simp [lookupAssoc, hk]
      · simp only [List.any_cons, Bool.or_eq_true, decide_eq_true_eq] at h
        rcases h with h | h
        · exact absurd h hk
        · simp only [List.map_cons, if_neg hk, lookupAssoc, List.find?]
          rw [decide_eq_false hk]
          exact ih h

theorem lookupAssoc_append_new (k : String) (v : Nat) :
    ∀ (l : List (String × Nat)), l.any (fun p => p.1 = k) = false →
    lookupAssoc (l ++ [(k, v)]) k = some v := by
  intro l
  induction l with
  | nil => simp [lookupAssoc]
  | cons hd tl ih =>
      intro h
      simp only [List.any_cons, Bool.or_eq_false_iff, decide_eq_false_iff_not] at h
      simp only [List.cons_append, lookupAssoc, List.find?]
      rw [decide_eq_false h.1]
      exact ih h.2

/-- `HashMap::insert` rebinds: looking the key up afterwards yields the
new value whether or not it was already bound. -/
theorem lookupAssoc_setAssoc (l : List (String × Nat)) (k : String) (v : Nat) :
    lookupAssoc (setAssoc l k v) k = some v := by
  unfold setAssoc
  by_cases h : l.any (fun p => p.1 = k) = true
  · rw [if_pos h]
    exact lookupAssoc_map_overwrite k v l h
  · rw [if_neg h]
    exact lookupAssoc_append_new k v l (Bool.eq_false_iff.mpr h)

/-- C7 (amended): only data names are checked for redeclaration.
`assemble_data` fails when its name is already bound to any label, but
a second text-label declaration of an already-bound name is accepted
and silently rebinds it to the current emission offset. -/
theorem spec2_C7 {name : String} {k : AKeyword} {toks : List AToken} {st : AsmSt}
    {fuel : Nat} (hdup : st.labels.any (fun p => p.1 = name) = true) :
    pass1Loop (fuel + 1) (.word name :: .colon :: toks) st
      = pass1Loop fuel toks
          { st with labels := setAssoc st.labels name st.program.length } ∧
    lookupAssoc (setAssoc st.labels name st.program.length) name
      = some st.program.length ∧
    assembleData (.word name :: .dot :: .kw k :: toks) st = none := by
  refine ⟨rfl, lookupAssoc_setAssoc _ _ _, ?_⟩
  simp only [assembleData]
  rw [if_pos hdup]

theorem spec2_C7_witness :
    lookupAssoc (setAssoc [("x", 0)] "x" 1) "x" = some 1 ∧
    assembleData [.word "x", .dot, .kw .word] ⟨[0], [("x", 0)], []⟩ = none := by
  have h := @spec2_C7 "x" .word [] ⟨[0], [("x", 0)], []⟩ 2 (by decide)
  exact ⟨h.2.1, h.2.2⟩
